import Mathlib

/-!
QLearn: tabular Q-learning on a 10x10 grid world

A shallow embedding of `src/main.cc`.

* `double` values are embedded as exact rationals (`ℚ`); the literals `0.3`
  and `0.8` are the rationals 3/10 and 8/10.
* `int` values are embedded as `Int`; signed overflow (undefined behaviour in
  C++) is not modelled.
* `std::rand()` is embedded as an explicit stream of draws that every
  consumer threads through.
* `std::map<KeyType, double>` is embedded as an association list with unique
  keys; `operator[]` inserts a zero entry for an absent key, as in C++.
-/

/-- The enum `Direction` (main.cc:12), with its sentinel enumerator. -/
inductive Direction where
  | UP
  | DOWN
  | LEFT
  | RIGHT
  | NUM_DIRECTIONS
  deriving DecidableEq, Repr

namespace Direction

/-- The integer value of an enumerator. -/
def toNat : Direction → Nat
  | UP => 0
  | DOWN => 1
  | LEFT => 2
  | RIGHT => 3
  | NUM_DIRECTIONS => 4

/-- The cast `static_cast<Direction>(i)`; the source only casts 0..3. -/
def ofIndex : Nat → Direction
  | 0 => UP
  | 1 => DOWN
  | 2 => LEFT
  | 3 => RIGHT
  | _ => NUM_DIRECTIONS

end Direction

/-- The stream of values returned by successive calls of `std::rand()`. -/
abbrev Draws := Nat → Nat

/-- The stream that remains after `k` calls of `std::rand()`. -/
def Draws.drop (k : Nat) (dr : Draws) : Draws := fun n => dr (n + k)

/-- The key type `std::pair<std::string, Direction>` (main.cc:16). -/
abbrev KeyType := String × Direction

/-- The table `std::map<KeyType, double>` (main.cc:68). -/
abbrev QMap := List (KeyType × ℚ)

/-- The expression `q[key]` read as a value: `std::map::operator[]` returns the
stored value, and inserts a value-initialised (zero) entry when the key is
absent. -/
def QMap.index (q : QMap) (key : KeyType) : ℚ × QMap :=
  match q.lookup key with
  | some v => (v, q)
  | none => (0, q ++ [(key, 0)])

/-- The statement `q[key] = v`: overwrite the entry of `key`, creating it when
absent. -/
def QMap.assign (q : QMap) (key : KeyType) (v : ℚ) : QMap :=
  match q.lookup key with
  | some _ => q.map (fun e => if e.1 = key then (e.1, v) else e)
  | none => q ++ [(key, v)]

/-- The class `QLearn` (main.cc:14-72): its four data members. -/
structure QLearn where
  q : QMap
  epsilon_ : ℚ
  alpha_ : ℚ
  gamma_ : ℚ

namespace QLearn

/-- The constructor `QLearn(epsilon, alpha, gamma)` (main.cc:18-21): the table
starts empty and `epsilon_` is initialised with the constant 100. -/
def new (_epsilon alpha gamma : ℚ) : QLearn :=
  { q := [], epsilon_ := 100, alpha_ := alpha, gamma_ := gamma }

/-- The method `GetQ` (main.cc:23-25): returns `q[(state, action)]`, together with the
learner whose table has the key materialised. -/
def GetQ (l : QLearn) (state : String) (action : Direction) : ℚ × QLearn :=
  ((QMap.index l.q (state, action)).1, { l with q := (QMap.index l.q (state, action)).2 })

/-- One iteration of the loop of `Learn` (main.cc:31-34): the accumulator is
`maxqnew` and the learner. -/
def LearnStep (state2 : String) (acc : ℚ × QLearn) (i : Nat) : ℚ × QLearn :=
  (max (acc.2.GetQ state2 (Direction.ofIndex i)).1 acc.1,
    (acc.2.GetQ state2 (Direction.ofIndex i)).2)

/-- The loop of `Learn` (main.cc:30-34): `maxqnew` starts at 0 and takes the
maximum with each of the `NUM_DIRECTIONS` values `GetQ(state2, i)`. -/
def LearnMax (l : QLearn) (state2 : String) : ℚ × QLearn :=
  (List.range Direction.NUM_DIRECTIONS.toNat).foldl (LearnStep state2) (0, l)

/-- The method `Learn` (main.cc:27-37): returns 0 and the learner after
`q[key] = q[key] + 0.3 * (reward + 0.8 * maxqnew - q[key])`. -/
def Learn (l : QLearn) (state : String) (action : Direction) (reward : ℚ)
    (state2 : String) : ℚ × QLearn :=
  let key : KeyType := (state, action)
  let m := LearnMax l state2
  let cur := QMap.index m.2.q key
  (0, { m.2 with
        q := QMap.assign cur.2 key (cur.1 + 0.3 * (reward + 0.8 * m.1 - cur.1)) })

/-- The test `rand <= epsilon_` (main.cc:40-41) on the first draw. -/
def explores (l : QLearn) (draw : Nat) : Bool :=
  decide (((draw % 1000 : Nat) : ℚ) ≤ l.epsilon_)

/-- One iteration of the first loop of `ChooseAction` (main.cc:47-49): the
accumulator is the vector `q` filled so far and the learner. -/
def FillStep (state : String) (acc : List ℚ × QLearn) (i : Nat) : List ℚ × QLearn :=
  (acc.1 ++ [(acc.2.GetQ state (Direction.ofIndex i)).1],
    (acc.2.GetQ state (Direction.ofIndex i)).2)

/-- The first loop of `ChooseAction` (main.cc:46-49): `q[i] = GetQ(state, i)`
for `i = 0..3`. -/
def Fill (l : QLearn) (state : String) : List ℚ × QLearn :=
  (List.range 4).foldl (FillStep state) ([], l)

/-- The second loop of `ChooseAction` (main.cc:50-55): the index of the first
strict maximum of the vector. -/
def MaxIndex (qs : List ℚ) : Nat :=
  (List.range 4).foldl (fun max_i i => if qs.getD i 0 > qs.getD max_i 0 then i else max_i) 0

/-- The third loop of `ChooseAction` (main.cc:57-62): the indexes whose value
equals the maximum, in ascending order. -/
def Indexes (qs : List ℚ) : List Nat :=
  (List.range 4).filter (fun i => qs.getD i 0 = qs.getD (MaxIndex qs) 0)

/-- The method `ChooseAction` (main.cc:39-65): consumes two draws and returns the chosen
direction, the learner (whose table has the read keys materialised) and the
remaining draws. -/
def ChooseAction (l : QLearn) (state : String) (dr : Draws) :
    Direction × QLearn × Draws :=
  if l.explores (dr 0) then
    (Direction.ofIndex (dr 1 % 4), l, Draws.drop 2 dr)
  else
    let f := Fill l state
    let indexes := Indexes f.1
    (Direction.ofIndex (indexes.getD (dr 1 % indexes.length) 4), f.2, Draws.drop 2 dr)

end QLearn

/-- A stream of draws given by its first values, followed by zeros. -/
def Draws.ofList (xs : List Nat) : Draws := fun n => xs.getD n 0

/-- The struct `Player` (main.cc:74-78). -/
structure Player where
  x : Int
  y : Int
  deriving DecidableEq, Repr

/-- The struct `Food` (main.cc:80-84). -/
structure Food where
  x : Int
  y : Int
  deriving DecidableEq, Repr

/-- The class `Board` (main.cc:86-156): its four data members. -/
structure Board where
  cells_ : List (List Int)
  player_ : Player
  food_ : Food
  score_ : Int
  deriving DecidableEq, Repr

namespace Board

/-- The constant `Board::height` (main.cc:88). -/
def height : Int := 10

/-- The constant `Board::width` (main.cc:89). -/
def width : Int := 10

/-- The accessor `cells()` (main.cc:127). -/
def cells (b : Board) : List (List Int) := b.cells_

/-- The accessor `score()` (main.cc:128). -/
def score (b : Board) : Int := b.score_

/-- The method `ResetCells` (main.cc:130-134): every cell of the grid becomes 0. -/
def ResetCells (b : Board) : Board :=
  { b with cells_ := List.replicate height.toNat (List.replicate width.toNat 0) }

/-- The statement `cells_[x][y] = v`. An index outside the grid is undefined
behaviour in C++; the embedding leaves the grid unchanged there. -/
def SetCell (cells : List (List Int)) (x y v : Int) : List (List Int) :=
  if 0 ≤ x ∧ x < height ∧ 0 ≤ y ∧ y < width then
    cells.set x.toNat ((cells.getD x.toNat []).set y.toNat v)
  else cells

/-- The method `UpdateCells` (main.cc:136-140): reset the grid, write 1 at the player's
cell, then 2 at the food's cell. -/
def UpdateCells (b : Board) : Board :=
  { b with
    cells_ := SetCell (SetCell (ResetCells b).cells_ b.player_.x b.player_.y 1)
      b.food_.x b.food_.y 2 }

/-- The loop condition of `MakeFood` (main.cc:148): the candidate `(x, y)` is
rejected when `x == player_.x && y == food_.y`. -/
def Rejects (b : Board) (x y : Int) : Bool :=
  decide (x = b.player_.x ∧ y = b.food_.y)

/-- The method `MakeFood` (main.cc:142-150): each iteration of the do-while loop draws
`x` and then `y`; the loop repeats while the candidate is rejected. The first
argument bounds the number of iterations; `none` means that the bound was
reached with every candidate rejected. -/
def MakeFood : Nat → Board → Draws → Option (Food × Draws)
  | 0, _, _ => none
  | fuel + 1, b, dr =>
    if b.Rejects ((dr 0 : Int) % height) ((dr 1 : Int) % width) then
      MakeFood fuel b (Draws.drop 2 dr)
    else
      some ({ x := (dr 0 : Int) % height, y := (dr 1 : Int) % width }, Draws.drop 2 dr)

/-- The constructor `Board()` (main.cc:91): the player starts at (0, 0), the
food is `MakeFood()` and the score is 0. `MakeFood` runs before `food_` has
been initialised, so the old content of `food_` that it reads is indeterminate;
it is the parameter `garbage`. -/
def new (garbage : Food) (fuel : Nat) (dr : Draws) : Option (Board × Draws) :=
  match MakeFood fuel { cells_ := [], player_ := ⟨0, 0⟩, food_ := garbage, score_ := 0 } dr with
  | none => none
  | some r => some (UpdateCells { cells_ := [], player_ := ⟨0, 0⟩, food_ := r.1, score_ := 0 }, r.2)

/-- The `switch` of `Move` (main.cc:94-109): the values of `new_x` and `new_y`.
The sentinel enumerator matches no case and leaves both unchanged. -/
def Target (b : Board) (d : Direction) : Int × Int :=
  match d with
  | .UP => (b.player_.x - 1, b.player_.y)
  | .DOWN => (b.player_.x + 1, b.player_.y)
  | .LEFT => (b.player_.x, b.player_.y - 1)
  | .RIGHT => (b.player_.x, b.player_.y + 1)
  | .NUM_DIRECTIONS => (b.player_.x, b.player_.y)

/-- The test of main.cc:110 on `(new_x, new_y)`. -/
def OutOfBounds (t : Int × Int) : Bool :=
  decide (t.1 < 0 ∨ t.2 < 0 ∨ t.1 ≥ height ∨ t.2 ≥ width)

/-- The method `Move` (main.cc:93-125): returns the boolean result, the board and the
remaining draws; `none` only when the bound given to `MakeFood` is reached. -/
def Move (fuel : Nat) (b : Board) (d : Direction) (dr : Draws) :
    Option (Bool × Board × Draws) :=
  if OutOfBounds (b.Target d) then
    some (false, { b with score_ := b.score_ - 100 }, dr)
  else if (b.Target d).1 = b.food_.x ∧ (b.Target d).2 = b.food_.y then
    match MakeFood fuel
        { b with player_ := ⟨(b.Target d).1, (b.Target d).2⟩, score_ := b.score_ + 100 } dr with
    | none => none
    | some r =>
      some (true,
        UpdateCells { b with player_ := ⟨(b.Target d).1, (b.Target d).2⟩,
                             food_ := r.1, score_ := b.score_ + 100 - 3 }, r.2)
  else
    some (true,
      UpdateCells { b with player_ := ⟨(b.Target d).1, (b.Target d).2⟩,
                           score_ := b.score_ - 3 }, dr)

end Board

/-- The candidate `(x, y)` computed by iteration `n` (from 0) of the loop of
`MakeFood` on the stream `dr` (main.cc:146-147). -/
def Board.Candidate (dr : Draws) (n : Nat) : Int × Int :=
  ((dr (2 * n) : Int) % Board.height, (dr (2 * n + 1) : Int) % Board.width)

/-- A position lies on the board: both coordinates in [0, 10). -/
def Board.InBounds (t : Int × Int) : Prop :=
  0 ≤ t.1 ∧ t.1 < Board.height ∧ 0 ≤ t.2 ∧ t.2 < Board.width

instance (t : Int × Int) : Decidable (Board.InBounds t) := by
  unfold Board.InBounds
  infer_instance

/-- The board of scenario S1: agent at (5, 5), food at (5, 7), score 0. -/
def Board.scenarioS1 : Board :=
  Board.UpdateCells { cells_ := [], player_ := ⟨5, 5⟩, food_ := ⟨5, 7⟩, score_ := 0 }

/-- The board of scenario S1 after its first move: agent at (5, 6), food at
(5, 7), score -3. -/
def Board.scenarioS1b : Board :=
  Board.UpdateCells { cells_ := [], player_ := ⟨5, 6⟩, food_ := ⟨5, 7⟩, score_ := -3 }

/-- The state in which the constructor `Board()` calls `MakeFood`, when the
uninitialised `food_` happens to hold (0, 5). -/
def Board.underConstruction : Board :=
  { cells_ := [], player_ := ⟨0, 0⟩, food_ := ⟨0, 5⟩, score_ := 0 }

/-- The board of scenario S2: agent at (0, 0), food at (3, 4), score 0. -/
def Board.scenarioS2 : Board :=
  Board.UpdateCells { cells_ := [], player_ := ⟨0, 0⟩, food_ := ⟨3, 4⟩, score_ := 0 }

/-- The four actions, in ascending order of their enum value. -/
def Direction.actions : List Direction := [.UP, .DOWN, .LEFT, .RIGHT]

/-- The actions whose Q-value is maximal among the four actions for `state`,
in ascending action order (the spec's "set of actions tied at the maximum").
The Q-value of an action is read off the stored table: the value of the entry
of the key, and 0 for a key that has no entry. -/
def QLearn.tiedMaxima (l : QLearn) (state : String) : List Direction :=
  Direction.actions.filter
    (fun a => decide (∀ b ∈ Direction.actions,
      (l.q.lookup (state, b)).getD 0 ≤ (l.q.lookup (state, a)).getD 0))

/-- A learner as constructed by `main` whose table holds Q("UP", UP) = 1,
Q("UP", DOWN) = 7 and Q("UP", LEFT) = -2, with no entry for ("UP", RIGHT): DOWN
is the unique maximum of state "UP". -/
def QLearn.downBest : QLearn :=
  { QLearn.new 0.05 0.1 0.9 with
    q := [(("UP", .UP), 1), (("UP", .DOWN), 7), (("UP", .LEFT), -2)] }

/-- The learner reached from the freshly constructed one of `main` by four
updates with reward -3 : every action of state "UP" then has value -9/10. -/
def QLearn.afterFourSteps : QLearn :=
  ((((((QLearn.new 0.05 0.1 0.9).Learn "UP" .UP (-3) "UP").2.Learn "UP" .DOWN (-3) "UP").2.Learn
    "UP" .LEFT (-3) "UPLEFT").2.Learn "UP" .RIGHT (-3) "UPRIGHT").2)

/-- The number of values `r` in [0, 1000) of the first draw for which
`ChooseAction` takes the exploration branch. -/
def QLearn.exploreCount (l : QLearn) : Nat :=
  ((Finset.range 1000).filter (fun r => l.explores r = true)).card

/-- The number of pairs of a first draw in [0, 1000) and a second draw in
[0, 12) for which `ChooseAction` returns `a`. The bound 12 is a common multiple
of the moduli 1, 2, 3, 4 that the second draw can meet, so that a uniform
second draw gives a uniform remainder. -/
def QLearn.chooseCount (l : QLearn) (state : String) (a : Direction) : Nat :=
  ((Finset.range 1000 ×ˢ Finset.range 12).filter
    (fun p => (l.ChooseAction state (Draws.ofList [p.1, p.2])).1 = a)).card

/-- The probability that `ChooseAction` returns `a` when both draws are
uniform: the share of the 12000 equally likely pairs of draws. -/
def QLearn.chooseProb (l : QLearn) (state : String) (a : Direction) : ℚ :=
  (l.chooseCount state a : ℚ) / 12000

/-- A learner as constructed by `main` whose table holds the single entry
Q("UP", UP) = 1, so that UP is the unique maximum of state "UP". -/
def QLearn.upBest : QLearn :=
  { QLearn.new 0.05 0.1 0.9 with q := [(("UP", .UP), 1)] }

/-- The table of scenario S4: Q(UPRIGHT, UP) = Q(UPRIGHT, RIGHT) = 1 and
Q(UPRIGHT, DOWN) = Q(UPRIGHT, LEFT) = 0. -/
def QLearn.tableS4 : QMap :=
  [(("UPRIGHT", .UP), 1), (("UPRIGHT", .DOWN), 0), (("UPRIGHT", .LEFT), 0),
    (("UPRIGHT", .RIGHT), 1)]

/-- The learner of scenario S4: constructed with the argument epsilon = 0 and
holding the table of the scenario. -/
def QLearn.scenarioS4 : QLearn :=
  { QLearn.new 0 0.3 0.8 with q := QLearn.tableS4 }

/-- The function `GetState` (main.cc:199-226): the label of the direction of
the food from the player. -/
def GetState (p : Player) (f : Food) : String :=
  if p.x = f.x then
    if p.y > f.y then "LEFT" else "RIGHT"
  else if p.x > f.x then
    if p.y = f.y then "UP"
    else if p.y > f.y then "UPLEFT" else "UPRIGHT"
  else
    if p.y = f.y then "DOWN"
    else if p.y > f.y then "DOWNLEFT" else "DOWNRIGHT"

/-- The labels that the encoder can return. -/
def GetState.labels : List String :=
  ["LEFT", "RIGHT", "UP", "DOWN", "UPLEFT", "UPRIGHT", "DOWNLEFT", "DOWNRIGHT"]

/-- The reference rule of the encoder as the specification words it, on the
agent's (row, column) and the food's (row, column): a table of the nine sign
patterns of the row and column differences. -/
def encodeRule (pr pc fr fc : Int) : String :=
  if pr = fr ∧ pc > fc then "LEFT"
  else if pr = fr ∧ pc ≤ fc then "RIGHT"
  else if pr > fr ∧ pc = fc then "UP"
  else if pr > fr ∧ pc > fc then "UPLEFT"
  else if pr > fr ∧ pc < fc then "UPRIGHT"
  else if pr < fr ∧ pc = fc then "DOWN"
  else if pr < fr ∧ pc > fc then "DOWNLEFT"
  else "DOWNRIGHT"

/-- The boards that a program can reach: the constructed board, and every
board left by a call of `Move` on a reachable board, for any action, any
draws and any bound on the respawn loop. -/
inductive Board.Reachable : Board → Prop where
  | construct (garbage : Food) (fuel : Nat) (dr : Draws) (r : Board × Draws) :
      Board.new garbage fuel dr = some r → Board.Reachable r.1
  | move (b : Board) (d : Direction) (fuel : Nat) (dr : Draws) (r : Bool × Board × Draws) :
      Board.Reachable b → Board.Move fuel b d dr = some r → Board.Reachable r.2.1

/-- The condition under which the access `cells[x][y]` is in range. -/
def Board.IndexInRange (cells : List (List Int)) (x y : Int) : Prop :=
  0 ≤ x ∧ x.toNat < cells.length ∧ 0 ≤ y ∧ y.toNat < (cells.getD x.toNat []).length

/-- The grid that the positions determine: 2 (FOOD) at the food's cell, 1
(AGENT) at the player's cell when it is not the food's cell, 0 (EMPTY)
everywhere else, in `height` rows of `width` cells. -/
def Board.projection (b : Board) : List (List Int) :=
  (List.range Board.height.toNat).map (fun (i : Nat) =>
    (List.range Board.width.toNat).map (fun (j : Nat) =>
    if (i : Int) = b.food_.x ∧ (j : Int) = b.food_.y then 2
    else if (i : Int) = b.player_.x ∧ (j : Int) = b.player_.y then 1 else 0))

/-- The local variables of `main` (main.cc:235-241) together with the stream of
draws: the state of the driver between two iterations of its loop. -/
structure Main.State where
  b : Board
  q : QLearn
  previous_score : Int
  previous_state : String
  stop : Bool
  state : String
  draws : Draws

/-- The part of `main` before its loop (main.cc:233-241): the board and the
learner are constructed, `previous_score` is 0, `stop` is false and the two
strings are empty. The learner's constructor seeds the generator again, so the
loop starts on a stream `dr1` of its own. -/
def Main.start (garbage : Food) (fuel : Nat) (dr0 dr1 : Draws) : Option Main.State :=
  match Board.new garbage fuel dr0 with
  | none => none
  | some r =>
    some { b := r.1, q := QLearn.new 0.05 0.1 0.9, previous_score := 0, previous_state := "",
           stop := false, state := "", draws := dr1 }

/-- One iteration of the loop of `main` (main.cc:242-255), without the drawing
and the sleep: encode, choose, move, encode, compute the reward, learn when
`stop || previous_score < 100000`, and record the score. -/
def Main.iteration (fuel : Nat) (st : Main.State) : Option Main.State :=
  match st.b.Move fuel
      (st.q.ChooseAction (GetState st.b.player_ st.b.food_) st.draws).1
      (st.q.ChooseAction (GetState st.b.player_ st.b.food_) st.draws).2.2 with
  | none => none
  | some m =>
    some { b := m.2.1,
           q := if st.stop || decide (st.previous_score < 100000) then
                  ((st.q.ChooseAction (GetState st.b.player_ st.b.food_) st.draws).2.1.Learn
                    (GetState st.b.player_ st.b.food_)
                    (st.q.ChooseAction (GetState st.b.player_ st.b.food_) st.draws).1
                    ((m.2.1.score - st.previous_score : Int) : ℚ)
                    (GetState m.2.1.player_ m.2.1.food_)).2
                else (st.q.ChooseAction (GetState st.b.player_ st.b.food_) st.draws).2.1,
           previous_score := m.2.1.score,
           previous_state := GetState st.b.player_ st.b.food_,
           stop := if st.stop || decide (st.previous_score < 100000) then true else st.stop,
           state := GetState m.2.1.player_ m.2.1.food_,
           draws := m.2.2 }

/-- The states of the driver that a run of `main` can reach. -/
inductive Main.Reachable : Main.State → Prop where
  | start (garbage : Food) (fuel : Nat) (dr0 dr1 : Draws) (st : Main.State) :
      Main.start garbage fuel dr0 dr1 = some st → Main.Reachable st
  | iterate (fuel : Nat) (st st2 : Main.State) :
      Main.Reachable st → Main.iteration fuel st = some st2 → Main.Reachable st2

/-- The keys of a table are pairwise different, and each is a pair of a label
of the encoder and one of the four actions. -/
def QMap.WellKeyed (q : QMap) : Prop :=
  (q.map Prod.fst).Nodup ∧
    ∀ k ∈ q.map Prod.fst, k.1 ∈ GetState.labels ∧ k.2 ∈ Direction.actions

/-- Every entry of a table lies in [-100, 485]. -/
def QMap.Bounded (q : QMap) : Prop :=
  ∀ e ∈ q, -100 ≤ e.2 ∧ e.2 ≤ 485

/-- The state in which the loop of `main` starts when the constructor of the
board draws 3 and 4 (food at (3, 4)) and the loop then draws 500, 3, 0, ... -/
def Main.sample : Main.State :=
  { b := Board.scenarioS2, q := QLearn.new 0.05 0.1 0.9, previous_score := 0,
    previous_state := "", stop := false, state := "", draws := Draws.ofList [500, 3] }

/-- The keys that the table holds, in the order of the association list. -/
def QMap.keys (q : QMap) : List KeyType := q.map Prod.fst

/-- The value that `q[key]` reads, without the insertion. -/
def QMap.read (q : QMap) (key : KeyType) : ℚ := (q.lookup key).getD 0

theorem QMap.lookup_append (q r : QMap) (k : KeyType) :
    (q ++ r).lookup k = (q.lookup k).orElse (fun _ => r.lookup k) := by
  induction q with
  | nil => simp [List.lookup]
  | cons e q ih =>
    obtain ⟨k1, v1⟩ := e
    by_cases hk : k = k1
    · subst hk; simp [List.lookup]
    · have : (k == k1) = false := by simpa using hk
      simp [List.lookup, this, ih]

theorem QMap.index_fst (q : QMap) (k : KeyType) : (QMap.index q k).1 = QMap.read q k := by
  unfold QMap.index QMap.read
  cases h : q.lookup k <;> simp

theorem QMap.read_index_snd (q : QMap) (k k1 : KeyType) :
    QMap.read (QMap.index q k).2 k1 = QMap.read q k1 := by
  unfold QMap.index
  cases h : q.lookup k with
  | some v => rfl
  | none =>
    simp only [QMap.read, QMap.lookup_append]
    cases h1 : q.lookup k1 with
    | some v => simp
    | none =>
      by_cases hk : k1 = k
      · subst hk; simp [List.lookup]
      · have : (k1 == k) = false := by simpa using hk
        simp [List.lookup, this]

theorem QMap.lookup_map_assign (q : QMap) (k k1 : KeyType) (v : ℚ) :
    (q.map (fun e => if e.1 = k then (e.1, v) else e)).lookup k1
      = if k1 = k then (q.lookup k1).map (fun _ => v) else q.lookup k1 := by
  induction q with
  | nil => simp [List.lookup]
  | cons e q ih =>
    obtain ⟨k2, v2⟩ := e
    rw [List.map_cons]
    by_cases h : k2 = k
    · have e1 : (if (k2, v2).1 = k then ((k2, v2).1, v) else (k2, v2)) = (k2, v) := if_pos h
      rw [e1]
      by_cases h12 : k1 = k2
      · subst h12; subst h; simp [List.lookup]
      · have hb : (k1 == k2) = false := by simpa using h12
        simp only [List.lookup, hb, ih]
    · have e1 : (if (k2, v2).1 = k then ((k2, v2).1, v) else (k2, v2)) = (k2, v2) := if_neg h
      rw [e1]
      by_cases h12 : k1 = k2
      · subst h12; simp [List.lookup, h]
      · have hb : (k1 == k2) = false := by simpa using h12
        simp only [List.lookup, hb, ih]

theorem QMap.read_assign (q : QMap) (k k1 : KeyType) (v : ℚ) :
    QMap.read (QMap.assign q k v) k1 = if k1 = k then v else QMap.read q k1 := by
  unfold QMap.assign
  cases h : q.lookup k with
  | some w =>
    simp only [QMap.read, QMap.lookup_map_assign]
    by_cases hk : k1 = k
    · subst hk; simp [h]
    · simp [hk]
  | none =>
    simp only [QMap.read, QMap.lookup_append]
    by_cases hk : k1 = k
    · subst hk; simp [h, List.lookup]
    · have : (k1 == k) = false := by simpa using hk
      cases h1 : q.lookup k1 <;> simp [List.lookup, this, hk]

namespace QLearn

theorem GetQ_fst (l : QLearn) (s : String) (a : Direction) :
    (l.GetQ s a).1 = QMap.read l.q (s, a) := by
  simp [GetQ, QMap.index_fst]

theorem GetQ_snd_read (l : QLearn) (s : String) (a : Direction) (k : KeyType) :
    QMap.read (l.GetQ s a).2.q k = QMap.read l.q k := by
  simp [GetQ, QMap.read_index_snd]

theorem GetQ_GetQ (l : QLearn) (s s1 : String) (a a1 : Direction) :
    ((l.GetQ s a).2.GetQ s1 a1).1 = (l.GetQ s1 a1).1 := by
  rw [GetQ_fst, GetQ_fst, GetQ_snd_read]

/-- The value of `maxqnew` after the loop of `Learn`, in terms of reads. -/
theorem LearnMax_fst (l : QLearn) (s2 : String) :
    (l.LearnMax s2).1
      = max (QMap.read l.q (s2, .RIGHT)) (max (QMap.read l.q (s2, .LEFT))
          (max (QMap.read l.q (s2, .DOWN)) (max (QMap.read l.q (s2, .UP)) 0))) := by
  have h4 : List.range Direction.NUM_DIRECTIONS.toNat = [0, 1, 2, 3] := by decide
  simp only [LearnMax, h4, List.foldl_cons, List.foldl_nil, LearnStep, GetQ_fst,
    GetQ_snd_read, Direction.ofIndex]

theorem LearnMax_snd_read (l : QLearn) (s2 : String) (k : KeyType) :
    QMap.read (l.LearnMax s2).2.q k = QMap.read l.q k := by
  have h4 : List.range Direction.NUM_DIRECTIONS.toNat = [0, 1, 2, 3] := by decide
  simp only [LearnMax, h4, List.foldl_cons, List.foldl_nil, LearnStep, GetQ_snd_read]

/-- Every read of the table after `Learn`, in terms of reads before it. -/
theorem Learn_read (l : QLearn) (s : String) (a : Direction) (r : ℚ) (s2 : String)
    (k : KeyType) :
    QMap.read (l.Learn s a r s2).2.q k
      = if k = (s, a) then
          QMap.read l.q (s, a) + 0.3 * (r + 0.8 * (l.LearnMax s2).1 - QMap.read l.q (s, a))
        else QMap.read l.q k := by
  simp only [Learn, QMap.read_assign, QMap.index_fst, QMap.read_index_snd, LearnMax_snd_read]

/-- The vector filled by the first loop of `ChooseAction`. -/
theorem Fill_fst (l : QLearn) (s : String) :
    (l.Fill s).1 = [(l.GetQ s .UP).1, (l.GetQ s .DOWN).1, (l.GetQ s .LEFT).1,
      (l.GetQ s .RIGHT).1] := by
  have h4 : List.range 4 = [0, 1, 2, 3] := by decide
  simp only [Fill, h4, List.foldl_cons, List.foldl_nil, FillStep, GetQ_fst,
    GetQ_snd_read, Direction.ofIndex, List.nil_append, List.cons_append]

theorem Fill_snd_read (l : QLearn) (s : String) (k : KeyType) :
    QMap.read (l.Fill s).2.q k = QMap.read l.q k := by
  have h4 : List.range 4 = [0, 1, 2, 3] := by decide
  simp only [Fill, h4, List.foldl_cons, List.foldl_nil, FillStep, GetQ_snd_read]

end QLearn

namespace QLearn

/-- The second loop of `ChooseAction` finds an index holding the largest of
the four values. -/
theorem MaxIndex_spec (a b c d : ℚ) :
    MaxIndex [a, b, c, d] < 4 ∧
      a ≤ [a, b, c, d].getD (MaxIndex [a, b, c, d]) 0 ∧
      b ≤ [a, b, c, d].getD (MaxIndex [a, b, c, d]) 0 ∧
      c ≤ [a, b, c, d].getD (MaxIndex [a, b, c, d]) 0 ∧
      d ≤ [a, b, c, d].getD (MaxIndex [a, b, c, d]) 0 := by
  have h4 : List.range 4 = [0, 1, 2, 3] := by decide
  have g0 : [a, b, c, d].getD 0 0 = a := rfl
  have g1 : [a, b, c, d].getD 1 0 = b := rfl
  have g2 : [a, b, c, d].getD 2 0 = c := rfl
  have g3 : [a, b, c, d].getD 3 0 = d := rfl
  simp only [MaxIndex, h4, List.foldl_cons, List.foldl_nil, g0, gt_iff_lt, lt_self_iff_false,
    if_false]
  split_ifs <;> simp only [g0, g1, g2, g3] at * <;>
    refine ⟨by norm_num, ?_, ?_, ?_, ?_⟩ <;> linarith

end QLearn


namespace QLearn

theorem Indexes_mem (qs : List ℚ) (i : Nat) :
    i ∈ Indexes qs ↔ i < 4 ∧ qs.getD i 0 = qs.getD (MaxIndex qs) 0 := by
  simp [Indexes]

theorem Indexes_ne_nil (a b c d : ℚ) : Indexes [a, b, c, d] ≠ [] := by
  have h := (Indexes_mem [a, b, c, d] (MaxIndex [a, b, c, d])).2
    ⟨(MaxIndex_spec a b c d).1, rfl⟩
  exact List.ne_nil_of_mem h

theorem getD_mod_mem (xs : List Nat) (t x : Nat) (h : xs ≠ []) :
    t % xs.length < xs.length ∧ xs[t % xs.length]? = some (xs.getD (t % xs.length) x)
      ∧ xs.getD (t % xs.length) x ∈ xs := by
  have hlen : 0 < xs.length := List.length_pos.2 h
  have hlt : t % xs.length < xs.length := Nat.mod_lt _ hlen
  refine ⟨hlt, ?_, ?_⟩
  · rw [List.getD_eq_getElem _ _ hlt, List.getElem?_eq_getElem hlt]
  · rw [List.getD_eq_getElem _ _ hlt]
    exact List.getElem_mem hlt

/-- The value read by `GetQ` for the action with enum value `i`, as an entry
of the vector filled by `ChooseAction`. -/
theorem Fill_getD (l : QLearn) (s : String) (i : Nat) (hi : i < 4) :
    (l.Fill s).1.getD i 0 = (l.GetQ s (Direction.ofIndex i)).1 := by
  rw [Fill_fst]
  interval_cases i <;> rfl

theorem ofIndex_mem_actions (i : Nat) (hi : i < 4) :
    Direction.ofIndex i ∈ Direction.actions := by
  interval_cases i <;> simp [Direction.ofIndex, Direction.actions]

theorem explores_eq_false (l : QLearn) (r : Nat)
    (h : l.epsilon_ < ((r % 1000 : ℕ) : ℚ)) : l.explores r = false := by
  simp only [explores, decide_eq_false_iff_not, not_le]
  exact h

/-- The greedy branch of `ChooseAction`: the index it selects. -/
theorem ChooseAction_greedy (l : QLearn) (s : String) (dr : Draws)
    (h : l.explores (dr 0) = false) :
    (l.ChooseAction s dr).1
      = Direction.ofIndex ((Indexes (l.Fill s).1).getD
          (dr 1 % (Indexes (l.Fill s).1).length) 4) := by
  simp [ChooseAction, h]

/-- Every index collected by the third loop holds a value that is at least
every value of the vector. -/
theorem Indexes_max (l : QLearn) (s : String) (i : Nat) (hi : i ∈ Indexes (l.Fill s).1) :
    i < 4 ∧ ∀ b ∈ Direction.actions,
      (l.GetQ s b).1 ≤ (l.GetQ s (Direction.ofIndex i)).1 := by
  obtain ⟨h4, he⟩ := (Indexes_mem _ _).1 hi
  refine ⟨h4, ?_⟩
  rw [← Fill_getD l s i h4, he, Fill_fst]
  obtain ⟨_, ha, hb, hc, hd⟩ := MaxIndex_spec (l.GetQ s .UP).1 (l.GetQ s .DOWN).1
    (l.GetQ s .LEFT).1 (l.GetQ s .RIGHT).1
  intro b hb1
  simp only [Direction.actions, List.mem_cons, List.mem_singleton, List.not_mem_nil,
    or_false] at hb1
  rcases hb1 with rfl | rfl | rfl | rfl <;> assumption

end QLearn

/-- C1 (defect of the code): on the learner reached from the empty table by
four updates, all four values of state "UP" are -9/10, so q0 = m = -9/10; the
call `Learn("UP", UP, -3, "UP")` leaves Q("UP", UP) = -153/100, which is not
the value q0 + 0.3 * (r + 0.8 * m - q0) = -873/500 of the update law. -/
theorem C1_Learn_negative_bootstrap :
    (∀ a ∈ Direction.actions, (QLearn.afterFourSteps.GetQ "UP" a).1 = -9 / 10) ∧
    ((QLearn.afterFourSteps.Learn "UP" .UP (-3) "UP").2.GetQ "UP" .UP).1 = -153 / 100 ∧
    ((QLearn.afterFourSteps.Learn "UP" .UP (-3) "UP").2.GetQ "UP" .UP).1
      ≠ (-9 / 10 : ℚ) + 0.3 * (-3 + 0.8 * (-9 / 10) - (-9 / 10)) := by
  decide!

/-- C2: whenever the first draw is not in the exploration branch
(`rand > epsilon_`), `ChooseAction` returns one of the four actions, and the
value that the table stores for it at the state (0 when the key has no entry)
is maximal among the stored values of the four actions; the values that
`GetQ` returns are these stored values; the vector of tied indexes is not
empty, the selecting index `draw % size` is in range, and the result is the
entry of the vector at that index. -/
theorem C2_greedy_selection (l : QLearn) (state : String) (dr : Draws)
    (hr : l.epsilon_ < ((dr 0 % 1000 : ℕ) : ℚ)) :
    (l.ChooseAction state dr).1 ∈ Direction.actions ∧
    (∀ b ∈ Direction.actions,
      (l.q.lookup (state, b)).getD 0
        ≤ (l.q.lookup (state, (l.ChooseAction state dr).1)).getD 0) ∧
    (∀ b ∈ Direction.actions, (l.GetQ state b).1 = (l.q.lookup (state, b)).getD 0) ∧
    (∀ b ∈ Direction.actions,
      (l.GetQ state b).1 ≤ (l.GetQ state (l.ChooseAction state dr).1).1) ∧
    QLearn.Indexes (l.Fill state).1 ≠ [] ∧
    dr 1 % (QLearn.Indexes (l.Fill state).1).length < (QLearn.Indexes (l.Fill state).1).length ∧
    ∃ i, (QLearn.Indexes (l.Fill state).1)[dr 1 % (QLearn.Indexes (l.Fill state).1).length]?
          = some i ∧ (l.ChooseAction state dr).1 = Direction.ofIndex i := by
  have hne : QLearn.Indexes (l.Fill state).1 ≠ [] := by
    rw [QLearn.Fill_fst]; exact QLearn.Indexes_ne_nil _ _ _ _
  obtain ⟨hlt, hget, hmem⟩ := QLearn.getD_mod_mem _ (dr 1) 4 hne
  obtain ⟨h4, hmax⟩ := QLearn.Indexes_max l state _ hmem
  have hstored : ∀ b : Direction,
      (l.GetQ state b).1 = (l.q.lookup (state, b)).getD 0 := by
    intro b
    rw [QLearn.GetQ_fst, QMap.read]
  rw [QLearn.ChooseAction_greedy l state dr (QLearn.explores_eq_false l _ hr)]
  refine ⟨QLearn.ofIndex_mem_actions _ h4, ?_, fun b _ => hstored b, hmax, hne, hlt, _, hget,
    rfl⟩
  intro b hb
  rw [← hstored b, ← hstored]
  exact hmax b hb

/-- C2 at concrete inputs, first draw 500 in the greedy branch: on the table
with Q("UP", UP) = 1, Q("UP", DOWN) = 7, Q("UP", LEFT) = -2 and no entry for
RIGHT the result is DOWN, the unique maximum; on the table of scenario S4
(UP and RIGHT tied at 1) the tie draw 3 gives RIGHT. -/
theorem C2_greedy_selection_witness :
    (QLearn.downBest.ChooseAction "UP" (Draws.ofList [500, 6])).1 = .DOWN ∧
    (QLearn.downBest.q.lookup ("UP", .DOWN)).getD 0 = 7 ∧
    (∀ b ∈ Direction.actions,
      (QLearn.downBest.q.lookup ("UP", b)).getD 0
        ≤ (QLearn.downBest.q.lookup
            ("UP", (QLearn.downBest.ChooseAction "UP" (Draws.ofList [500, 6])).1)).getD 0) ∧
    (QLearn.scenarioS4.ChooseAction "UPRIGHT" (Draws.ofList [500, 3])).1 = .RIGHT ∧
    (∀ b ∈ Direction.actions,
      (QLearn.scenarioS4.q.lookup ("UPRIGHT", b)).getD 0
        ≤ (QLearn.scenarioS4.q.lookup ("UPRIGHT",
            (QLearn.scenarioS4.ChooseAction "UPRIGHT" (Draws.ofList [500, 3])).1)).getD 0) :=
  ⟨by decide, by decide,
   (C2_greedy_selection QLearn.downBest "UP" (Draws.ofList [500, 6]) (by decide!)).2.1,
   by decide,
   (C2_greedy_selection QLearn.scenarioS4 "UPRIGHT" (Draws.ofList [500, 3]) (by decide!)).2.1⟩

namespace QLearn

/-- The value that `GetQ` returns is the stored value of the key, 0 for a key
without an entry. -/
theorem GetQ_fst_lookup (l : QLearn) (s : String) (a : Direction) :
    (l.GetQ s a).1 = (l.q.lookup (s, a)).getD 0 := by
  rw [GetQ_fst, QMap.read]

/-- The tied maxima, defined on the stored table, are the actions whose value
returned by `GetQ` is maximal. -/
theorem tiedMaxima_eq_GetQ (l : QLearn) (s : String) :
    l.tiedMaxima s = Direction.actions.filter
      (fun a => decide (∀ b ∈ Direction.actions, (l.GetQ s b).1 ≤ (l.GetQ s a).1)) := by
  simp only [tiedMaxima, GetQ_fst_lookup]

theorem mem_tiedMaxima (l : QLearn) (s : String) (a : Direction) :
    a ∈ l.tiedMaxima s ↔
      a ∈ Direction.actions ∧ ∀ b ∈ Direction.actions, (l.GetQ s b).1 ≤ (l.GetQ s a).1 := by
  rw [tiedMaxima_eq_GetQ]
  simp

/-- The indexes collected by the third loop of `ChooseAction` are the enum
values of the tied maxima, in the same (ascending) order. -/
theorem Indexes_map (l : QLearn) (s : String) :
    (Indexes (l.Fill s).1).map Direction.ofIndex = l.tiedMaxima s := by
  have hact : Direction.actions = (List.range 4).map Direction.ofIndex := by decide
  rw [tiedMaxima_eq_GetQ]
  rw [hact, List.filter_map]
  congr 1
  unfold Indexes
  apply List.filter_congr
  intro i hi
  have h4 : i < 4 := List.mem_range.1 hi
  rw [← hact]
  simp only [Function.comp, decide_eq_decide]
  constructor
  · intro he
    exact (Indexes_max l s i ((Indexes_mem _ _).2 ⟨h4, he⟩)).2
  · intro hall
    have hm := MaxIndex_spec (l.GetQ s .UP).1 (l.GetQ s .DOWN).1 (l.GetQ s .LEFT).1
      (l.GetQ s .RIGHT).1
    rw [← Fill_fst] at hm
    have hle : (l.Fill s).1.getD (MaxIndex (l.Fill s).1) 0 ≤ (l.Fill s).1.getD i 0 := by
      rw [Fill_getD l s _ hm.1, Fill_getD l s i h4]
      exact hall _ (ofIndex_mem_actions _ hm.1)
    have hge : (l.Fill s).1.getD i 0 ≤ (l.Fill s).1.getD (MaxIndex (l.Fill s).1) 0 := by
      rw [Fill_fst]
      rw [Fill_fst] at hm
      interval_cases i
      · exact hm.2.1
      · exact hm.2.2.1
      · exact hm.2.2.2.1
      · exact hm.2.2.2.2
    exact le_antisymm hge hle

/-- The greedy branch of `ChooseAction` selects the tied maximum at position
`draw % k`, where `k` is the number of tied maxima. -/
theorem ChooseAction_greedy_tied (l : QLearn) (s : String) (dr : Draws)
    (h : l.explores (dr 0) = false) :
    (l.ChooseAction s dr).1
      = (l.tiedMaxima s).getD (dr 1 % (l.tiedMaxima s).length) .NUM_DIRECTIONS := by
  rw [ChooseAction_greedy l s dr h, ← Indexes_map, List.length_map]
  have h5 : Direction.NUM_DIRECTIONS = Direction.ofIndex 4 := rfl
  rw [h5, List.getD_map]

theorem ChooseAction_explore (l : QLearn) (s : String) (dr : Draws)
    (h : l.explores (dr 0) = true) :
    (l.ChooseAction s dr).1 = Direction.ofIndex (dr 1 % 4) := by
  simp [ChooseAction, h]

end QLearn

namespace QLearn

/-- With an integer threshold `e ≤ 999`, the exploration test on a draw below
1000 is `r ≤ e`. -/
theorem explores_iff (l : QLearn) (e r : Nat) (he : l.epsilon_ = (e : ℚ)) (hr : r < 1000) :
    l.explores r = true ↔ r ≤ e := by
  simp only [explores, decide_eq_true_eq, he, Nat.mod_eq_of_lt hr, Nat.cast_le]

theorem exploreCount_eq (l : QLearn) (e : Nat) (he : l.epsilon_ = (e : ℚ)) (h : e ≤ 999) :
    l.exploreCount = e + 1 := by
  have hset : (Finset.range 1000).filter (fun r => l.explores r = true)
      = Finset.range (e + 1) := by
    ext r
    simp only [Finset.mem_filter, Finset.mem_range]
    constructor
    · rintro ⟨hr, hx⟩
      exact Nat.lt_succ_of_le ((explores_iff l e r he hr).1 hx)
    · intro hr
      have hr1 : r < 1000 := by omega
      exact ⟨hr1, (explores_iff l e r he hr1).2 (Nat.le_of_lt_succ hr)⟩
  rw [exploreCount, hset, Finset.card_range]

/-- When UP is the unique maximum of the state, it is the only tied maximum. -/
theorem tiedMaxima_unique_UP (l : QLearn) (s : String)
    (hD : (l.GetQ s .DOWN).1 < (l.GetQ s .UP).1)
    (hL : (l.GetQ s .LEFT).1 < (l.GetQ s .UP).1)
    (hR : (l.GetQ s .RIGHT).1 < (l.GetQ s .UP).1) :
    l.tiedMaxima s = [.UP] := by
  rw [tiedMaxima_eq_GetQ]
  simp only [Direction.actions, List.filter_cons, List.filter_nil,
    List.mem_cons, List.mem_singleton, forall_eq_or_imp, forall_eq, List.not_mem_nil,
    or_false, decide_eq_true_eq, le_refl, true_and, and_true]
  rw [if_pos ⟨le_of_lt hD, le_of_lt hL, le_of_lt hR⟩, if_neg (fun h => absurd h.1 (not_le.2 hD)),
    if_neg (fun h => absurd h.1 (not_le.2 hL)), if_neg (fun h => absurd h.1 (not_le.2 hR))]

/-- The pairs of draws on which `ChooseAction` returns UP, when UP is the
unique maximum: every pair of the greedy branch, and the pairs of the
exploration branch whose second draw is a multiple of 4. -/
theorem chooseCount_unique_UP (l : QLearn) (s : String) (e : Nat)
    (he : l.epsilon_ = (e : ℚ)) (h : e ≤ 999)
    (hD : (l.GetQ s .DOWN).1 < (l.GetQ s .UP).1)
    (hL : (l.GetQ s .LEFT).1 < (l.GetQ s .UP).1)
    (hR : (l.GetQ s .RIGHT).1 < (l.GetQ s .UP).1) :
    l.chooseCount s .UP = (e + 1) * 3 + (999 - e) * 12 := by
  have hset : (Finset.range 1000 ×ˢ Finset.range 12).filter
        (fun p => (l.ChooseAction s (Draws.ofList [p.1, p.2])).1 = Direction.UP)
      = (Finset.range (e + 1) ×ˢ (Finset.range 12).filter (fun t => t % 4 = 0))
        ∪ (Finset.Ico (e + 1) 1000 ×ˢ Finset.range 12) := by
    ext ⟨r, t⟩
    simp only [Finset.mem_filter, Finset.mem_product, Finset.mem_range, Finset.mem_union,
      Finset.mem_Ico]
    by_cases hr : r < 1000
    · have key : (l.ChooseAction s (Draws.ofList [r, t])).1 = Direction.UP
          ↔ (r ≤ e → t % 4 = 0) := by
        by_cases hx : l.explores r = true
        · have hc := ChooseAction_explore l s (Draws.ofList [r, t]) hx
          have ht : Draws.ofList [r, t] 1 = t := rfl
          have hre := (explores_iff l e r he hr).1 hx
          rw [hc, ht]
          have h4 : t % 4 < 4 := Nat.mod_lt _ (by norm_num)
          constructor
          · intro hup _
            interval_cases hm : t % 4 <;> simp_all [Direction.ofIndex]
          · intro hm
            rw [hm hre]; rfl
        · have hx1 : l.explores r = false := by simpa using hx
          have hc := ChooseAction_greedy_tied l s (Draws.ofList [r, t]) hx1
          rw [tiedMaxima_unique_UP l s hD hL hR] at hc
          have hup : (l.ChooseAction s (Draws.ofList [r, t])).1 = Direction.UP := by
            rw [hc]
            simp [Nat.mod_one]
          have hre : ¬ r ≤ e := fun hle => hx ((explores_iff l e r he hr).2 hle)
          simp only [hup, true_iff]
          intro hle
          exact absurd hle hre
      rw [key]
      omega
    · constructor
      · rintro ⟨⟨h1, _⟩, _⟩
        exact absurd h1 hr
      · rintro (⟨h1, _⟩ | ⟨⟨_, h1⟩, _⟩)
        · omega
        · exact absurd h1 hr
  have hdisj : Disjoint
      (Finset.range (e + 1) ×ˢ (Finset.range 12).filter (fun t => t % 4 = 0))
      (Finset.Ico (e + 1) 1000 ×ˢ Finset.range 12) := by
    rw [Finset.disjoint_left]
    rintro ⟨r, t⟩ h1 h2
    simp only [Finset.mem_product, Finset.mem_range, Finset.mem_Ico] at h1 h2
    omega
  have h3 : ((Finset.range 12).filter (fun t => t % 4 = 0)).card = 3 := by decide
  rw [chooseCount, hset, Finset.card_union_of_disjoint hdisj, Finset.card_product,
    Finset.card_product, Finset.card_range, Finset.card_range, h3, Nat.card_Ico]
  omega

end QLearn

/-- C3 (as stated, refuted): for the learner of `main` (threshold 100) with UP
the unique maximum of state "UP", 101 and not 100 of the 1000 values of the
first draw take the exploration branch, and the probability of UP is not
(1 - 100/1000) + (100/1000)/4 = 0.925. -/
theorem C3_exploration_rate_counterexample :
    QLearn.upBest.epsilon_ = 100 ∧
    (∀ b ∈ [Direction.DOWN, Direction.LEFT, Direction.RIGHT],
      (QLearn.upBest.GetQ "UP" b).1 < (QLearn.upBest.GetQ "UP" .UP).1) ∧
    QLearn.upBest.exploreCount ≠ 100 ∧
    QLearn.upBest.chooseProb "UP" .UP ≠ (1 - 100 / 1000) + (100 / 1000) / 4 := by
  have he : QLearn.upBest.epsilon_ = ((100 : ℕ) : ℚ) := by
    simp [QLearn.upBest, QLearn.new]
  refine ⟨by simp [QLearn.upBest, QLearn.new], by decide, ?_, ?_⟩
  · rw [QLearn.exploreCount_eq QLearn.upBest 100 he (by norm_num)]
    norm_num
  · rw [QLearn.chooseProb, QLearn.chooseCount_unique_UP QLearn.upBest "UP" 100 he (by norm_num)
      (by decide) (by decide) (by decide)]
    norm_num

/-- C3 (amended): the test is `rand <= epsilon_`, so for an integer threshold
`e ≤ 999` exactly `e + 1` of the 1000 values of the first draw take the
exploration branch, and when UP is the unique maximum of the state the
probability that `ChooseAction` returns UP under uniform draws is
(1 - (e+1)/1000) + ((e+1)/1000)/4. -/
theorem C3_exploration_rate (l : QLearn) (s : String) (e : Nat)
    (he : l.epsilon_ = (e : ℚ)) (h : e ≤ 999)
    (hD : (l.GetQ s .DOWN).1 < (l.GetQ s .UP).1)
    (hL : (l.GetQ s .LEFT).1 < (l.GetQ s .UP).1)
    (hR : (l.GetQ s .RIGHT).1 < (l.GetQ s .UP).1) :
    l.exploreCount = e + 1 ∧
    l.chooseProb s .UP = (1 - ((e : ℚ) + 1) / 1000) + (((e : ℚ) + 1) / 1000) / 4 := by
  refine ⟨QLearn.exploreCount_eq l e he h, ?_⟩
  rw [QLearn.chooseProb, QLearn.chooseCount_unique_UP l s e he h hD hL hR]
  have hcast : ((999 - e : ℕ) : ℚ) = 999 - (e : ℚ) := by
    rw [Nat.cast_sub h]; norm_num
  push_cast [hcast]
  ring

/-- C3 (amended) at the learner of `main` with UP the unique maximum of state
"UP": 101 exploring values and probability 0.92425 of UP. -/
theorem C3_exploration_rate_witness :
    QLearn.upBest.exploreCount = 100 + 1 ∧
    QLearn.upBest.chooseProb "UP" .UP
      = (1 - (((100 : ℕ) : ℚ) + 1) / 1000) + ((((100 : ℕ) : ℚ) + 1) / 1000) / 4 :=
  C3_exploration_rate QLearn.upBest "UP" 100 (by simp [QLearn.upBest, QLearn.new])
    (by decide) (by decide) (by decide) (by decide)

namespace QLearn

/-- Among `k * n` consecutive draws from 0, exactly `n` leave each remainder
`i < k`. -/
theorem card_mod_eq (k i : Nat) (hi : i < k) (n : Nat) :
    ((Finset.range (k * n)).filter (fun t => t % k = i)).card = n := by
  induction n with
  | zero => simp
  | succ n ih =>
    rw [Finset.card_filter] at ih ⊢
    rw [Nat.mul_succ, Finset.sum_range_add, ih]
    have h1 : ∀ x ∈ Finset.range k,
        (if (k * n + x) % k = i then 1 else 0) = if i = x then 1 else 0 := by
      intro x hx
      rw [Nat.mul_add_mod, Nat.mod_eq_of_lt (Finset.mem_range.1 hx)]
      by_cases h : x = i
      · subst h; simp
      · rw [if_neg h, if_neg (fun h2 => h h2.symm)]
    rw [Finset.sum_congr rfl h1, Finset.sum_ite_eq, if_pos (Finset.mem_range.2 hi)]

theorem tiedMaxima_nodup (l : QLearn) (s : String) : (l.tiedMaxima s).Nodup :=
  List.Nodup.filter _ (by decide)

theorem tiedMaxima_ne_nil (l : QLearn) (s : String) : l.tiedMaxima s ≠ [] := by
  rw [← Indexes_map, Fill_fst]
  intro h
  exact Indexes_ne_nil _ _ _ _ (List.map_eq_nil_iff.1 h)

/-- The position `j` of a list without duplicates holds `a` exactly when `j`
is the index of `a`. -/
theorem getD_eq_iff_indexOf (xs : List Direction) (hn : xs.Nodup) (a : Direction)
    (ha : a ∈ xs) (j : Nat) (hj : j < xs.length) :
    xs.getD j .NUM_DIRECTIONS = a ↔ j = xs.indexOf a := by
  have hi : xs.indexOf a < xs.length := List.indexOf_lt_length.2 ha
  rw [List.getD_eq_getElem _ _ hj]
  constructor
  · intro h
    have h2 : xs[j] = xs[xs.indexOf a] := by rw [h, List.getElem_indexOf hi]
    exact (hn.getElem_inj_iff).1 h2
  · intro h
    subst h
    exact List.getElem_indexOf hi

/-- When the four values of a state are equal, all four actions are tied. -/
theorem tiedMaxima_all_equal (l : QLearn) (s : String)
    (h : ∀ a ∈ Direction.actions, ∀ b ∈ Direction.actions,
      (l.q.lookup (s, a)).getD 0 = (l.q.lookup (s, b)).getD 0) :
    l.tiedMaxima s = Direction.actions := by
  unfold tiedMaxima
  rw [List.filter_eq_self]
  intro a ha
  simp only [decide_eq_true_eq]
  intro b hb
  exact le_of_eq (h b hb a ha)

/-- When the four values of a state are equal, both branches of
`ChooseAction` return the action whose enum value is `draw % 4`. -/
theorem ChooseAction_all_equal (l : QLearn) (s : String) (dr : Draws)
    (h : ∀ a ∈ Direction.actions, ∀ b ∈ Direction.actions,
      (l.q.lookup (s, a)).getD 0 = (l.q.lookup (s, b)).getD 0) :
    (l.ChooseAction s dr).1 = Direction.ofIndex (dr 1 % 4) := by
  by_cases hx : l.explores (dr 0) = true
  · exact ChooseAction_explore l s dr hx
  · have hx1 : l.explores (dr 0) = false := by simpa using hx
    rw [ChooseAction_greedy_tied l s dr hx1, tiedMaxima_all_equal l s h]
    have h4 : dr 1 % 4 < 4 := Nat.mod_lt _ (by norm_num)
    have hlen : Direction.actions.length = 4 := rfl
    rw [hlen]
    interval_cases dr 1 % 4 <;> rfl

theorem chooseCount_all_equal (l : QLearn) (s : String)
    (h : ∀ a ∈ Direction.actions, ∀ b ∈ Direction.actions,
      (l.q.lookup (s, a)).getD 0 = (l.q.lookup (s, b)).getD 0)
    (a : Direction) (ha : a ∈ Direction.actions) : l.chooseCount s a = 3000 := by
  have hset : (Finset.range 1000 ×ˢ Finset.range 12).filter
        (fun p => (l.ChooseAction s (Draws.ofList [p.1, p.2])).1 = a)
      = Finset.range 1000 ×ˢ (Finset.range 12).filter (fun t => Direction.ofIndex (t % 4) = a) := by
    ext ⟨r, t⟩
    have ht : Draws.ofList [r, t] 1 = t := rfl
    simp only [Finset.mem_filter, Finset.mem_product, Finset.mem_range,
      ChooseAction_all_equal l s _ h, ht]
    tauto
  have h3 : ((Finset.range 12).filter (fun t => Direction.ofIndex (t % 4) = a)).card = 3 := by
    simp only [Direction.actions, List.mem_cons, List.mem_singleton, List.not_mem_nil,
      or_false] at ha
    rcases ha with rfl | rfl | rfl | rfl <;> decide
  rw [chooseCount, hset, Finset.card_product, Finset.card_range, h3]

end QLearn

/-- C4: the Q-value of an action is the value that the table stores for it
at the state, 0 when the key has no entry. (1) For a state whose four
Q-values are equal, each of the four actions is returned on exactly one
quarter (3000 of 12000) of the equally likely pairs of draws, so with
probability 1/4; (2) the tied maxima are exactly the actions whose stored
value is at least every stored value of the state, listed in ascending action
order, their number `k` is at least 1, and in the greedy branch the tie draw
`t` selects the tied maximum at position `t % k`; (3) over `k * n`
consecutive values of the tie draw every tied maximum is selected exactly `n`
times; (4) with at least two tied maxima the tie draws 0 and 1 select
different actions, so the choice is not a fixed first maximum. -/
theorem C4_tie_breaking (l : QLearn) (s : String) :
    ((∀ a ∈ Direction.actions, ∀ b ∈ Direction.actions,
        (l.q.lookup (s, a)).getD 0 = (l.q.lookup (s, b)).getD 0) →
      ∀ a ∈ Direction.actions, l.chooseCount s a = 3000 ∧ l.chooseProb s a = 1 / 4) ∧
    ((∀ a : Direction, a ∈ l.tiedMaxima s ↔
        a ∈ Direction.actions ∧ ∀ b ∈ Direction.actions,
          (l.q.lookup (s, b)).getD 0 ≤ (l.q.lookup (s, a)).getD 0) ∧
      (l.tiedMaxima s).Pairwise (fun a b => a.toNat < b.toNat) ∧
      0 < (l.tiedMaxima s).length ∧
      ∀ dr : Draws, l.explores (dr 0) = false →
        (l.tiedMaxima s)[dr 1 % (l.tiedMaxima s).length]? = some (l.ChooseAction s dr).1) ∧
    (∀ r : Nat, l.explores r = false → ∀ a ∈ l.tiedMaxima s, ∀ n : Nat,
      ((Finset.range ((l.tiedMaxima s).length * n)).filter
        (fun t => (l.ChooseAction s (Draws.ofList [r, t])).1 = a)).card = n) ∧
    (∀ r : Nat, l.explores r = false → 2 ≤ (l.tiedMaxima s).length →
      (l.ChooseAction s (Draws.ofList [r, 1])).1 ≠ (l.ChooseAction s (Draws.ofList [r, 0])).1) := by
  have hpos : 0 < (l.tiedMaxima s).length := List.length_pos.2 (QLearn.tiedMaxima_ne_nil l s)
  refine ⟨?_, ⟨?_, ?_, hpos, ?_⟩, ?_, ?_⟩
  · intro h a ha
    have hc := QLearn.chooseCount_all_equal l s h a ha
    refine ⟨hc, ?_⟩
    rw [QLearn.chooseProb, hc]
    norm_num
  · intro a
    simp [QLearn.tiedMaxima]
  · exact List.Pairwise.filter _ (by decide)
  · intro dr hx
    have hlt : dr 1 % (l.tiedMaxima s).length < (l.tiedMaxima s).length := Nat.mod_lt _ hpos
    rw [QLearn.ChooseAction_greedy_tied l s dr hx, List.getD_eq_getElem _ _ hlt,
      List.getElem?_eq_getElem hlt]
  · intro r hx a ha n
    have hi : (l.tiedMaxima s).indexOf a < (l.tiedMaxima s).length :=
      List.indexOf_lt_length.2 ha
    refine Eq.trans ?_ (QLearn.card_mod_eq (l.tiedMaxima s).length ((l.tiedMaxima s).indexOf a) hi n)
    congr 1
    apply Finset.filter_congr
    intro t _
    have hx0 : l.explores (Draws.ofList [r, t] 0) = false := hx
    have ht : Draws.ofList [r, t] 1 = t := rfl
    rw [QLearn.ChooseAction_greedy_tied l s _ hx0, ht]
    exact QLearn.getD_eq_iff_indexOf _ (QLearn.tiedMaxima_nodup l s) a ha _ (Nat.mod_lt _ hpos)
  · intro r hx h2 heq
    have hx0 : l.explores (Draws.ofList [r, 0] 0) = false := hx
    have hx1 : l.explores (Draws.ofList [r, 1] 0) = false := hx
    have h0 : (0 : Nat) % (l.tiedMaxima s).length < (l.tiedMaxima s).length := Nat.mod_lt _ hpos
    have h1 : (1 : Nat) % (l.tiedMaxima s).length < (l.tiedMaxima s).length := Nat.mod_lt _ hpos
    have ht0 : Draws.ofList [r, 0] 1 = 0 := rfl
    have ht1 : Draws.ofList [r, 1] 1 = 1 := rfl
    rw [QLearn.ChooseAction_greedy_tied l s _ hx0, QLearn.ChooseAction_greedy_tied l s _ hx1,
      ht0, ht1, List.getD_eq_getElem _ _ h0, List.getD_eq_getElem _ _ h1] at heq
    have hidx := ((QLearn.tiedMaxima_nodup l s).getElem_inj_iff).1 heq
    rw [Nat.zero_mod, Nat.mod_eq_of_lt (by omega)] at hidx
    exact absurd hidx (by norm_num)

/-- C4 at concrete inputs, first draw 500 in the greedy branch: the freshly
constructed learner (four equal values) gives LEFT with probability 1/4; on
the table of scenario S4 the tied maxima are UP and RIGHT (k = 2), the tie
draws 0, 1, 3 give UP, RIGHT, RIGHT, the tie draw 1 selects position 1 % 2,
RIGHT is selected on 3 of the 6 tie draws below 2 * 3, and the tie draws 0
and 1 differ; on the table with DOWN the unique maximum (k = 1) the only
tied maximum is DOWN. -/
theorem C4_tie_breaking_witness :
    (QLearn.new 0.05 0.1 0.9).chooseProb "UP" .LEFT = 1 / 4 ∧
    QLearn.scenarioS4.tiedMaxima "UPRIGHT" = [.UP, .RIGHT] ∧
    (QLearn.scenarioS4.ChooseAction "UPRIGHT" (Draws.ofList [500, 0])).1 = .UP ∧
    (QLearn.scenarioS4.ChooseAction "UPRIGHT" (Draws.ofList [500, 1])).1 = .RIGHT ∧
    (QLearn.scenarioS4.ChooseAction "UPRIGHT" (Draws.ofList [500, 3])).1 = .RIGHT ∧
    (QLearn.scenarioS4.tiedMaxima "UPRIGHT")[Draws.ofList [500, 1] 1
        % (QLearn.scenarioS4.tiedMaxima "UPRIGHT").length]?
      = some (QLearn.scenarioS4.ChooseAction "UPRIGHT" (Draws.ofList [500, 1])).1 ∧
    ((Finset.range ((QLearn.scenarioS4.tiedMaxima "UPRIGHT").length * 3)).filter
      (fun t => (QLearn.scenarioS4.ChooseAction "UPRIGHT" (Draws.ofList [500, t])).1
        = .RIGHT)).card = 3 ∧
    (QLearn.scenarioS4.ChooseAction "UPRIGHT" (Draws.ofList [500, 1])).1
      ≠ (QLearn.scenarioS4.ChooseAction "UPRIGHT" (Draws.ofList [500, 0])).1 ∧
    QLearn.downBest.tiedMaxima "UP" = [.DOWN] ∧
    (QLearn.downBest.ChooseAction "UP" (Draws.ofList [500, 5])).1 = .DOWN :=
  ⟨((C4_tie_breaking (QLearn.new 0.05 0.1 0.9) "UP").1 (by decide) .LEFT (by decide)).2,
   by decide, by decide, by decide, by decide,
   (C4_tie_breaking QLearn.scenarioS4 "UPRIGHT").2.1.2.2.2 (Draws.ofList [500, 1]) (by decide!),
   (C4_tie_breaking QLearn.scenarioS4 "UPRIGHT").2.2.1 500 (by decide!) .RIGHT (by decide) 3,
   (C4_tie_breaking QLearn.scenarioS4 "UPRIGHT").2.2.2 500 (by decide!) (by decide),
   by decide, by decide⟩

/-- C5 (as stated, refuted): the learner of scenario S4, constructed with
epsilon = 0, returns DOWN on the draws 50, 1 and LEFT on the draws 0, 2. -/
theorem C5_scenario_S4_counterexample :
    (QLearn.scenarioS4.ChooseAction "UPRIGHT" (Draws.ofList [50, 1])).1 = .DOWN ∧
    (QLearn.scenarioS4.ChooseAction "UPRIGHT" (Draws.ofList [0, 2])).1 = .LEFT := by
  decide

/-- C5 (amended): the constructor sets the threshold to 100 whatever its
epsilon argument; for a learner so constructed whose table has
Q(UPRIGHT, UP) = Q(UPRIGHT, RIGHT) = 1 and Q(UPRIGHT, DOWN) = Q(UPRIGHT, LEFT)
= 0, and for every sequence of draws whose first draw `r = draw % 1000`
exceeds 100, `ChooseAction("UPRIGHT")` returns UP or RIGHT, never DOWN or
LEFT. -/
theorem C5_scenario_S4 (epsilon alpha gamma : ℚ) (q : QMap) (dr : Draws)
    (hU : (QLearn.GetQ { QLearn.new epsilon alpha gamma with q := q } "UPRIGHT" .UP).1 = 1)
    (hR : (QLearn.GetQ { QLearn.new epsilon alpha gamma with q := q } "UPRIGHT" .RIGHT).1 = 1)
    (hD : (QLearn.GetQ { QLearn.new epsilon alpha gamma with q := q } "UPRIGHT" .DOWN).1 = 0)
    (hL : (QLearn.GetQ { QLearn.new epsilon alpha gamma with q := q } "UPRIGHT" .LEFT).1 = 0)
    (hr : 100 < dr 0 % 1000) :
    ((QLearn.ChooseAction { QLearn.new epsilon alpha gamma with q := q } "UPRIGHT" dr).1 = .UP ∨
      (QLearn.ChooseAction { QLearn.new epsilon alpha gamma with q := q } "UPRIGHT" dr).1
        = .RIGHT) ∧
    (QLearn.ChooseAction { QLearn.new epsilon alpha gamma with q := q } "UPRIGHT" dr).1 ≠ .DOWN ∧
    (QLearn.ChooseAction { QLearn.new epsilon alpha gamma with q := q } "UPRIGHT" dr).1
      ≠ .LEFT := by
  have hx : QLearn.explores { QLearn.new epsilon alpha gamma with q := q } (dr 0) = false := by
    apply QLearn.explores_eq_false
    have h100 : (QLearn.epsilon_ { QLearn.new epsilon alpha gamma with q := q }) = 100 := rfl
    rw [h100]
    exact_mod_cast hr
  have ht : QLearn.tiedMaxima { QLearn.new epsilon alpha gamma with q := q } "UPRIGHT"
      = [.UP, .RIGHT] := by
    rw [QLearn.tiedMaxima_eq_GetQ]
    simp only [Direction.actions, List.filter_cons, List.filter_nil,
      List.mem_cons, List.mem_singleton, forall_eq_or_imp, forall_eq, List.not_mem_nil,
      or_false, hU, hR, hD, hL]
    norm_num
  have hc := QLearn.ChooseAction_greedy_tied _ "UPRIGHT" dr hx
  rw [ht] at hc
  have h2 : dr 1 % 2 < 2 := Nat.mod_lt _ (by norm_num)
  have hlen : [Direction.UP, Direction.RIGHT].length = 2 := rfl
  rw [hlen] at hc
  rw [hc]
  interval_cases dr 1 % 2 <;> simp [List.getD]

/-- C5 (amended) at the learner of scenario S4 with the draws 500, 7. -/
theorem C5_scenario_S4_witness :
    ((QLearn.scenarioS4.ChooseAction "UPRIGHT" (Draws.ofList [500, 7])).1 = .UP ∨
      (QLearn.scenarioS4.ChooseAction "UPRIGHT" (Draws.ofList [500, 7])).1 = .RIGHT) ∧
    (QLearn.scenarioS4.ChooseAction "UPRIGHT" (Draws.ofList [500, 7])).1 ≠ .DOWN ∧
    (QLearn.scenarioS4.ChooseAction "UPRIGHT" (Draws.ofList [500, 7])).1 ≠ .LEFT :=
  C5_scenario_S4 0 0.3 0.8 QLearn.tableS4 (Draws.ofList [500, 7])
    (by decide) (by decide) (by decide) (by decide) (by decide)

namespace Board

theorem OutOfBounds_eq_false_iff (t : Int × Int) : OutOfBounds t = false ↔ InBounds t := by
  simp only [OutOfBounds, InBounds, height, width, decide_eq_false_iff_not]
  omega

theorem OutOfBounds_eq_true_iff (t : Int × Int) : OutOfBounds t = true ↔ ¬ InBounds t := by
  simp only [OutOfBounds, InBounds, height, width, decide_eq_true_eq]
  omega

/-- The food returned by `MakeFood` is on the board and was not rejected. -/
theorem MakeFood_spec (fuel : Nat) (b : Board) (dr : Draws) (r : Food × Draws)
    (h : MakeFood fuel b dr = some r) :
    InBounds (r.1.x, r.1.y) ∧ b.Rejects r.1.x r.1.y = false := by
  induction fuel generalizing dr with
  | zero => simp [MakeFood] at h
  | succ fuel ih =>
    rw [MakeFood] at h
    by_cases hrej : b.Rejects ((dr 0 : Int) % height) ((dr 1 : Int) % width) = true
    · rw [if_pos hrej] at h
      exact ih _ h
    · rw [if_neg hrej] at h
      have hr : r = ({ x := (dr 0 : Int) % height, y := (dr 1 : Int) % width },
          Draws.drop 2 dr) := (Option.some.inj h).symm
      subst hr
      refine ⟨?_, by simpa using hrej⟩
      simp only [InBounds, height, width]
      omega

theorem Candidate_drop (dr : Draws) (n : Nat) :
    Candidate (Draws.drop 2 dr) n = Candidate dr (n + 1) := by
  simp only [Candidate, Draws.drop]
  have h1 : 2 * n + 2 = 2 * (n + 1) := by ring
  have h2 : 2 * n + 1 + 2 = 2 * (n + 1) + 1 := by ring
  rw [h1, h2]

/-- The loop of `MakeFood` finishes within `n + 1` iterations when candidate
number `n` is not rejected. -/
theorem MakeFood_returns (n : Nat) (fuel : Nat) (b : Board) (dr : Draws) (hn : n < fuel)
    (hacc : b.Rejects (Candidate dr n).1 (Candidate dr n).2 = false) :
    ∃ r, MakeFood fuel b dr = some r := by
  induction n generalizing fuel dr with
  | zero =>
    obtain ⟨f, rfl⟩ : ∃ f, fuel = f + 1 := ⟨fuel - 1, by omega⟩
    have hacc0 : b.Rejects ((dr 0 : Int) % height) ((dr 1 : Int) % width) = false := hacc
    rw [MakeFood, hacc0]
    exact ⟨_, rfl⟩
  | succ n ih =>
    obtain ⟨f, rfl⟩ : ∃ f, fuel = f + 1 := ⟨fuel - 1, by omega⟩
    rw [MakeFood]
    by_cases hrej : b.Rejects ((dr 0 : Int) % height) ((dr 1 : Int) % width) = true
    · rw [if_pos hrej]
      exact ih f (Draws.drop 2 dr) (by omega) (by rw [Candidate_drop]; exact hacc)
    · rw [if_neg hrej]
      exact ⟨_, rfl⟩

/-- The result of `Move` on a target outside the board. -/
theorem Move_out (fuel : Nat) (b : Board) (d : Direction) (dr : Draws)
    (h : ¬ InBounds (b.Target d)) :
    Move fuel b d dr = some (false, { b with score_ := b.score_ - 100 }, dr) := by
  rw [Move, if_pos ((OutOfBounds_eq_true_iff _).2 h)]

/-- The result of `Move` on a target on the board that is not the food's cell. -/
theorem Move_step (fuel : Nat) (b : Board) (d : Direction) (dr : Draws)
    (h : InBounds (b.Target d))
    (hf : ¬ ((b.Target d).1 = b.food_.x ∧ (b.Target d).2 = b.food_.y)) :
    Move fuel b d dr = some (true,
      UpdateCells { b with player_ := ⟨(b.Target d).1, (b.Target d).2⟩,
                           score_ := b.score_ - 3 }, dr) := by
  have ho : OutOfBounds (b.Target d) = false := (OutOfBounds_eq_false_iff _).2 h
  simp only [Move, ho, if_neg hf, Bool.false_eq_true, if_false]

/-- The result of `Move` on a target on the board that is the food's cell. -/
theorem Move_capture (fuel : Nat) (b : Board) (d : Direction) (dr : Draws)
    (h : InBounds (b.Target d))
    (hf : (b.Target d).1 = b.food_.x ∧ (b.Target d).2 = b.food_.y) :
    Move fuel b d dr =
      (MakeFood fuel
        { b with player_ := ⟨(b.Target d).1, (b.Target d).2⟩, score_ := b.score_ + 100 } dr).map
      (fun r => (true,
        UpdateCells { b with player_ := ⟨(b.Target d).1, (b.Target d).2⟩,
                             food_ := r.1, score_ := b.score_ + 100 - 3 }, r.2)) := by
  have ho : OutOfBounds (b.Target d) = false := (OutOfBounds_eq_false_iff _).2 h
  simp only [Move, ho, if_pos hf, Bool.false_eq_true, if_false]
  cases MakeFood fuel
    { b with player_ := ⟨(b.Target d).1, (b.Target d).2⟩, score_ := b.score_ + 100 } dr <;> rfl

end Board

/-- C6: for every board (the agent in-bounds or not) and action, `Move`
returns false exactly when the target cell (the agent's position shifted by
the action) lies outside the 10x10 board, and whenever it returns false the agent's and the food's
positions are unchanged and the score has decreased by exactly 100. -/
theorem C6_illegal_move (b : Board) (d : Direction) (fuel : Nat) (dr : Draws) :
    ((∃ r, Board.Move fuel b d dr = some r ∧ r.1 = false) ↔ ¬ Board.InBounds (b.Target d)) ∧
    (∀ r, Board.Move fuel b d dr = some r → r.1 = false →
      r.2.1.player_ = b.player_ ∧ r.2.1.food_ = b.food_ ∧ r.2.1.score_ = b.score_ - 100) ∧
    (d = .UP → b.Target d = (b.player_.x - 1, b.player_.y)) ∧
    (d = .DOWN → b.Target d = (b.player_.x + 1, b.player_.y)) ∧
    (d = .LEFT → b.Target d = (b.player_.x, b.player_.y - 1)) ∧
    (d = .RIGHT → b.Target d = (b.player_.x, b.player_.y + 1)) := by
  have hfalse : ∀ r, Board.Move fuel b d dr = some r → r.1 = false →
      ¬ Board.InBounds (b.Target d) := by
    intro r hr hr1 hib
    by_cases hf : (b.Target d).1 = b.food_.x ∧ (b.Target d).2 = b.food_.y
    · rw [Board.Move_capture fuel b d dr hib hf] at hr
      cases hm : Board.MakeFood fuel
        { b with player_ := ⟨(b.Target d).1, (b.Target d).2⟩, score_ := b.score_ + 100 } dr with
      | none => rw [hm] at hr; simp at hr
      | some x =>
        rw [hm] at hr
        have := (Option.some.inj hr).symm
        subst this
        simp at hr1
    · rw [Board.Move_step fuel b d dr hib hf] at hr
      have := (Option.some.inj hr).symm
      subst this
      simp at hr1
  refine ⟨⟨?_, ?_⟩, ?_, ?_, ?_, ?_, ?_⟩
  · rintro ⟨r, hr, hr1⟩
    exact hfalse r hr hr1
  · intro hout
    exact ⟨_, Board.Move_out fuel b d dr hout, rfl⟩
  · intro r hr hr1
    have hout := hfalse r hr hr1
    rw [Board.Move_out fuel b d dr hout] at hr
    have := (Option.some.inj hr).symm
    subst this
    exact ⟨rfl, rfl, rfl⟩
  all_goals
    intro hd
    subst hd
    rfl

/-- C6 at scenario S2: agent at (0, 0), score 0, action UP: `Move` returns
false, the agent stays at (0, 0) and the score becomes -100. -/
theorem C6_illegal_move_witness :
    Board.InBounds (Board.scenarioS2.player_.x, Board.scenarioS2.player_.y) ∧
    (∃ r, Board.Move 0 Board.scenarioS2 .UP (Draws.ofList []) = some r ∧ r.1 = false) ∧
    (∀ r, Board.Move 0 Board.scenarioS2 .UP (Draws.ofList []) = some r → r.1 = false →
      r.2.1.player_ = ⟨0, 0⟩ ∧ r.2.1.food_ = ⟨3, 4⟩ ∧ r.2.1.score_ = -100) :=
  ⟨by decide,
   (C6_illegal_move Board.scenarioS2 .UP 0 (Draws.ofList [])).1.2 (by decide),
   (C6_illegal_move Board.scenarioS2 .UP 0 (Draws.ofList [])).2.1⟩

namespace Board

/-- The call of `Move` on a target on the board returns as soon as the respawn loop does:
at once when the target is not the food's cell, and within `n + 1` iterations
when candidate number `n` is not the target cell. -/
theorem Move_returns (fuel : Nat) (b : Board) (d : Direction) (dr : Draws)
    (h : InBounds (b.Target d)) :
    (¬ ((b.Target d).1 = b.food_.x ∧ (b.Target d).2 = b.food_.y) →
      ∃ r, Move fuel b d dr = some r) ∧
    (∀ n, n < fuel → Candidate dr n ≠ b.Target d → ∃ r, Move fuel b d dr = some r) := by
  constructor
  · intro hf
    exact ⟨_, Move_step fuel b d dr h hf⟩
  · intro n hn hc
    by_cases hf : (b.Target d).1 = b.food_.x ∧ (b.Target d).2 = b.food_.y
    · have hacc : Rejects
          { b with player_ := ⟨(b.Target d).1, (b.Target d).2⟩, score_ := b.score_ + 100 }
          (Candidate dr n).1 (Candidate dr n).2 = false := by
        simp only [Rejects, decide_eq_false_iff_not]
        rintro ⟨h1, h2⟩
        apply hc
        rw [← hf.2] at h2
        exact Prod.ext h1 h2
      obtain ⟨r, hr⟩ := MakeFood_returns n fuel _ dr hn hacc
      rw [Move_capture fuel b d dr h hf, hr]
      exact ⟨_, rfl⟩
    · exact ⟨_, Move_step fuel b d dr h hf⟩

/-- Every result of `Move` on a target on the board: the agent is on the
target, the result is true, and the score has changed by 97 on the food's
cell and by -3 elsewhere; on the food's cell the new food is on the board and
not on the agent's new cell. -/
theorem Move_in_spec (fuel : Nat) (b : Board) (d : Direction) (dr : Draws)
    (h : InBounds (b.Target d)) (r : Bool × Board × Draws) (hr : Move fuel b d dr = some r) :
    r.1 = true ∧ r.2.1.player_ = ⟨(b.Target d).1, (b.Target d).2⟩ ∧
    r.2.1.score_ = b.score_ +
      (if (b.Target d).1 = b.food_.x ∧ (b.Target d).2 = b.food_.y then 97 else -3) ∧
    (((b.Target d).1 = b.food_.x ∧ (b.Target d).2 = b.food_.y) →
      InBounds (r.2.1.food_.x, r.2.1.food_.y) ∧
      ¬ (r.2.1.food_.x = r.2.1.player_.x ∧ r.2.1.food_.y = r.2.1.player_.y)) ∧
    (¬ ((b.Target d).1 = b.food_.x ∧ (b.Target d).2 = b.food_.y) → r.2.1.food_ = b.food_) := by
  by_cases hf : (b.Target d).1 = b.food_.x ∧ (b.Target d).2 = b.food_.y
  · rw [Move_capture fuel b d dr h hf] at hr
    cases hm : MakeFood fuel
      { b with player_ := ⟨(b.Target d).1, (b.Target d).2⟩, score_ := b.score_ + 100 } dr with
    | none => rw [hm] at hr; simp at hr
    | some x =>
      obtain ⟨hib, hrej⟩ := MakeFood_spec _ _ _ _ hm
      rw [hm] at hr
      have := (Option.some.inj hr).symm
      subst this
      simp only [Rejects, decide_eq_false_iff_not] at hrej
      refine ⟨rfl, rfl, ?_, ?_, fun hnf => absurd hf hnf⟩
      · simp only [Option.map, UpdateCells, if_pos hf]
        ring
      · intro _
        refine ⟨hib, ?_⟩
        simp only [UpdateCells]
        rw [hf.2]
        exact hrej
  · rw [Move_step fuel b d dr h hf] at hr
    have := (Option.some.inj hr).symm
    subst this
    refine ⟨rfl, rfl, ?_, fun hf1 => absurd hf1 hf, fun _ => rfl⟩
    simp only [UpdateCells, if_neg hf]
    ring

end Board

/-- C7: for every board and every action whose target is in-bounds, every
result of `Move` is true with the agent at (r-1, c) for UP, (r+1, c) for DOWN,
(r, c-1) for LEFT and (r, c+1) for RIGHT, where (r, c) was its position; and
`Move` does return: at once when the target is not the food's cell, and
otherwise as soon as one of the first `fuel` respawn candidates differs from
the target cell. -/
theorem C7_move_mechanics (b : Board) (d : Direction) (fuel : Nat) (dr : Draws)
    (h : Board.InBounds (b.Target d)) :
    (∀ r, Board.Move fuel b d dr = some r →
      r.1 = true ∧
      r.2.1.player_ =
        (match d with
          | .UP => ⟨b.player_.x - 1, b.player_.y⟩
          | .DOWN => ⟨b.player_.x + 1, b.player_.y⟩
          | .LEFT => ⟨b.player_.x, b.player_.y - 1⟩
          | .RIGHT => ⟨b.player_.x, b.player_.y + 1⟩
          | .NUM_DIRECTIONS => b.player_)) ∧
    (¬ ((b.Target d).1 = b.food_.x ∧ (b.Target d).2 = b.food_.y) →
      ∃ r, Board.Move fuel b d dr = some r) ∧
    (∀ n, n < fuel → Board.Candidate dr n ≠ b.Target d →
      ∃ r, Board.Move fuel b d dr = some r) := by
  refine ⟨?_, (Board.Move_returns fuel b d dr h).1, (Board.Move_returns fuel b d dr h).2⟩
  intro r hr
  obtain ⟨h1, h2, _⟩ := Board.Move_in_spec fuel b d dr h r hr
  refine ⟨h1, ?_⟩
  rw [h2]
  cases d <;> rfl

/-- C7 at scenario S1: from (5, 5) the action RIGHT puts the agent on (5, 6). -/
theorem C7_move_mechanics_witness :
    Board.InBounds (Board.scenarioS1.Target .RIGHT) ∧
    (∃ r, Board.Move 0 Board.scenarioS1 .RIGHT (Draws.ofList []) = some r) ∧
    (∀ r, Board.Move 0 Board.scenarioS1 .RIGHT (Draws.ofList []) = some r →
      r.1 = true ∧ r.2.1.player_ = ⟨5, 5 + 1⟩) :=
  ⟨by decide,
   (C7_move_mechanics Board.scenarioS1 .RIGHT 0 (Draws.ofList []) (by decide)).2.1 (by decide),
   (C7_move_mechanics Board.scenarioS1 .RIGHT 0 (Draws.ofList []) (by decide)).1⟩

/-- C8: for every board and every action whose target is in-bounds, every
result of `Move` has the score changed by exactly -3 when the target is not
the food's cell and by exactly +97 when it is, and `Move` does return (at
once off the food, and on the food as soon as a respawn candidate differs
from the target); so from agent (5, 5), food (5, 7), score 0, RIGHT gives
score -3 and a second RIGHT gives score 94. -/
theorem C8_reward_shaping (b : Board) (d : Direction) (fuel : Nat) (dr : Draws)
    (h : Board.InBounds (b.Target d)) :
    (∀ r, Board.Move fuel b d dr = some r →
      r.2.1.score_ - b.score_ =
        if (b.Target d).1 = b.food_.x ∧ (b.Target d).2 = b.food_.y then 97 else -3) ∧
    (¬ ((b.Target d).1 = b.food_.x ∧ (b.Target d).2 = b.food_.y) →
      ∃ r, Board.Move fuel b d dr = some r) ∧
    (∀ n, n < fuel → Board.Candidate dr n ≠ b.Target d →
      ∃ r, Board.Move fuel b d dr = some r) ∧
    (∀ (fuel1 fuel2 : Nat) (dr1 : Draws) (r1 r2 : Bool × Board × Draws),
      Board.Move fuel1 Board.scenarioS1 .RIGHT dr1 = some r1 →
      Board.Move fuel2 r1.2.1 .RIGHT r1.2.2 = some r2 →
      r1.2.1.score_ = -3 ∧ r2.2.1.score_ = 94) := by
  refine ⟨?_, (Board.Move_returns fuel b d dr h).1, (Board.Move_returns fuel b d dr h).2, ?_⟩
  · intro r hr
    obtain ⟨_, _, h3, _⟩ := Board.Move_in_spec fuel b d dr h r hr
    rw [h3]
    ring
  · intro fuel1 fuel2 dr1 r1 r2 h1 h2
    have hs1 : Board.Move fuel1 Board.scenarioS1 .RIGHT dr1
        = some (true, Board.scenarioS1b, dr1) :=
      Board.Move_step fuel1 Board.scenarioS1 .RIGHT dr1 (by decide) (by decide)
    rw [hs1] at h1
    have := (Option.some.inj h1).symm
    subst this
    obtain ⟨_, _, h3, _⟩ := Board.Move_in_spec fuel2 Board.scenarioS1b .RIGHT dr1 (by decide) r2 h2
    refine ⟨rfl, ?_⟩
    rw [h3]
    decide

/-- C8 at scenario S1 with the respawn draws 3, 4: the first RIGHT gives score
-3 and the second, which captures the food at (5, 7), gives score 94. -/
theorem C8_reward_shaping_witness :
    Board.InBounds (Board.scenarioS1b.Target .RIGHT) ∧
    (∃ r, Board.Move 1 Board.scenarioS1b .RIGHT (Draws.ofList [3, 4]) = some r) ∧
    (∀ r, Board.Move 1 Board.scenarioS1b .RIGHT (Draws.ofList [3, 4]) = some r →
      r.2.1.score_ - Board.scenarioS1b.score_ = 97) ∧
    (Board.Move 0 Board.scenarioS1 .RIGHT (Draws.ofList [3, 4])).map (fun r => r.2.1.score_)
      = some (-3) ∧
    (Board.Move 1 Board.scenarioS1b .RIGHT (Draws.ofList [3, 4])).map (fun r => r.2.1.score_)
      = some 94 :=
  ⟨by decide,
   (C8_reward_shaping Board.scenarioS1b .RIGHT 1 (Draws.ofList [3, 4]) (by decide)).2.2.1 0
     (by decide) (by decide),
   (C8_reward_shaping Board.scenarioS1b .RIGHT 1 (Draws.ofList [3, 4]) (by decide)).1,
   by decide, by decide⟩

/-- C9: for every board and action where `Move` lands the agent on the food's
cell, every result of `Move` has the new food in [0,10) x [0,10) and not on
the agent's new position, which is the captured cell; and `Move` returns as
soon as one of the first `fuel` respawn candidates differs from that cell. -/
theorem C9_food_respawn (b : Board) (d : Direction) (fuel : Nat) (dr : Draws)
    (h : Board.InBounds (b.Target d))
    (hcap : (b.Target d).1 = b.food_.x ∧ (b.Target d).2 = b.food_.y) :
    (∀ r, Board.Move fuel b d dr = some r →
      Board.InBounds (r.2.1.food_.x, r.2.1.food_.y) ∧
      (r.2.1.food_.x, r.2.1.food_.y) ≠ (r.2.1.player_.x, r.2.1.player_.y) ∧
      r.2.1.player_ = ⟨b.food_.x, b.food_.y⟩) ∧
    (∀ n, n < fuel → Board.Candidate dr n ≠ (b.food_.x, b.food_.y) →
      ∃ r, Board.Move fuel b d dr = some r) := by
  constructor
  · intro r hr
    obtain ⟨_, h2, _, h4, _⟩ := Board.Move_in_spec fuel b d dr h r hr
    obtain ⟨hib, hne⟩ := h4 hcap
    refine ⟨hib, ?_, ?_⟩
    · intro heq
      exact hne ⟨congrArg Prod.fst heq, congrArg Prod.snd heq⟩
    · rw [h2, hcap.1, hcap.2]
  · intro n hn hc
    apply (Board.Move_returns fuel b d dr h).2 n hn
    intro heq
    apply hc
    rw [heq]
    exact Prod.ext hcap.1 hcap.2

/-- C9 at scenario S1 after its first move, with the respawn draws 5, 7, 3, 4:
the candidate (5, 7) is rejected and the new food is at (3, 4). -/
theorem C9_food_respawn_witness :
    (Board.InBounds (Board.scenarioS1b.Target .RIGHT) ∧
      (Board.scenarioS1b.Target .RIGHT).1 = Board.scenarioS1b.food_.x ∧
      (Board.scenarioS1b.Target .RIGHT).2 = Board.scenarioS1b.food_.y) ∧
    (Board.Move 2 Board.scenarioS1b .RIGHT (Draws.ofList [5, 7, 3, 4])).map
      (fun r => (r.2.1.player_, r.2.1.food_)) = some (⟨5, 7⟩, ⟨3, 4⟩) ∧
    (∀ r, Board.Move 2 Board.scenarioS1b .RIGHT (Draws.ofList [5, 7, 3, 4]) = some r →
      Board.InBounds (r.2.1.food_.x, r.2.1.food_.y) ∧
      (r.2.1.food_.x, r.2.1.food_.y) ≠ (r.2.1.player_.x, r.2.1.player_.y) ∧
      r.2.1.player_ = ⟨5, 7⟩) :=
  ⟨by decide, by decide,
   (C9_food_respawn Board.scenarioS1b .RIGHT 2 (Draws.ofList [5, 7, 3, 4]) (by decide)
     (by decide)).1⟩

/-- C10 (defect of the code): `MakeFood` tests `x == player_.x && y ==
food_.y`. In the constructor, with the agent at (0, 0) and the uninitialised
`food_` holding (0, 5), the candidate (0, 0) on the agent's cell is not
rejected and the candidate (0, 5) off the agent's cell is rejected: the draws
0, 0 construct a board whose food is on the agent, and the draws 0, 5, 3, 4
skip the free cell (0, 5). -/
theorem C10_MakeFood_mixed_check :
    Board.underConstruction.player_ = ⟨0, 0⟩ ∧
    Board.underConstruction.Rejects 0 0 = false ∧
    Board.underConstruction.Rejects 0 5 = true ∧
    (Board.new ⟨0, 5⟩ 1 (Draws.ofList [0, 0])).map (fun r => (r.1.player_, r.1.food_))
      = some (⟨0, 0⟩, ⟨0, 0⟩) ∧
    (Board.new ⟨0, 5⟩ 2 (Draws.ofList [0, 5, 3, 4])).map (fun r => (r.1.player_, r.1.food_))
      = some (⟨0, 0⟩, ⟨3, 4⟩) := by
  decide

/-- The value of `GetState` in each of the nine sign patterns. -/
theorem GetState_cases (p : Player) (f : Food) :
    (p.x = f.x ∧ p.y > f.y → GetState p f = "LEFT") ∧
    (p.x = f.x ∧ p.y ≤ f.y → GetState p f = "RIGHT") ∧
    (p.x > f.x ∧ p.y = f.y → GetState p f = "UP") ∧
    (p.x > f.x ∧ p.y > f.y → GetState p f = "UPLEFT") ∧
    (p.x > f.x ∧ p.y < f.y → GetState p f = "UPRIGHT") ∧
    (p.x < f.x ∧ p.y = f.y → GetState p f = "DOWN") ∧
    (p.x < f.x ∧ p.y > f.y → GetState p f = "DOWNLEFT") ∧
    (p.x < f.x ∧ p.y < f.y → GetState p f = "DOWNRIGHT") := by
  refine ⟨?_, ?_, ?_, ?_, ?_, ?_, ?_, ?_⟩
  · rintro ⟨h1, h2⟩
    rw [GetState, if_pos h1, if_pos h2]
  · rintro ⟨h1, h2⟩
    rw [GetState, if_pos h1, if_neg (not_lt.2 h2)]
  · rintro ⟨h1, h2⟩
    rw [GetState, if_neg (ne_of_gt h1), if_pos h1, if_pos h2]
  · rintro ⟨h1, h2⟩
    rw [GetState, if_neg (ne_of_gt h1), if_pos h1, if_neg (ne_of_gt h2), if_pos h2]
  · rintro ⟨h1, h2⟩
    rw [GetState, if_neg (ne_of_gt h1), if_pos h1, if_neg (ne_of_lt h2),
      if_neg (not_lt.2 (le_of_lt h2))]
  · rintro ⟨h1, h2⟩
    rw [GetState, if_neg (ne_of_lt h1), if_neg (not_lt.2 (le_of_lt h1)), if_pos h2]
  · rintro ⟨h1, h2⟩
    rw [GetState, if_neg (ne_of_lt h1), if_neg (not_lt.2 (le_of_lt h1)), if_neg (ne_of_gt h2),
      if_pos h2]
  · rintro ⟨h1, h2⟩
    rw [GetState, if_neg (ne_of_lt h1), if_neg (not_lt.2 (le_of_lt h1)), if_neg (ne_of_lt h2),
      if_neg (not_lt.2 (le_of_lt h2))]

/-- The value of the reference rule in each of the nine sign patterns. -/
theorem encodeRule_cases (pr pc fr fc : Int) :
    (pr = fr ∧ pc > fc → encodeRule pr pc fr fc = "LEFT") ∧
    (pr = fr ∧ pc ≤ fc → encodeRule pr pc fr fc = "RIGHT") ∧
    (pr > fr ∧ pc = fc → encodeRule pr pc fr fc = "UP") ∧
    (pr > fr ∧ pc > fc → encodeRule pr pc fr fc = "UPLEFT") ∧
    (pr > fr ∧ pc < fc → encodeRule pr pc fr fc = "UPRIGHT") ∧
    (pr < fr ∧ pc = fc → encodeRule pr pc fr fc = "DOWN") ∧
    (pr < fr ∧ pc > fc → encodeRule pr pc fr fc = "DOWNLEFT") ∧
    (pr < fr ∧ pc < fc → encodeRule pr pc fr fc = "DOWNRIGHT") := by
  have key : ∀ (c : Prop) [Decidable c] (x y : String), ¬ c → (if c then x else y) = y :=
    fun c _ x y hc => if_neg hc
  refine ⟨?_, ?_, ?_, ?_, ?_, ?_, ?_, ?_⟩ <;> intro h <;> unfold encodeRule
  · exact if_pos h
  · rw [key _ _ _ (by omega)]
    exact if_pos h
  · iterate 2 rw [key _ _ _ (by omega)]
    exact if_pos h
  · iterate 3 rw [key _ _ _ (by omega)]
    exact if_pos h
  · iterate 4 rw [key _ _ _ (by omega)]
    exact if_pos h
  · iterate 5 rw [key _ _ _ (by omega)]
    exact if_pos h
  · iterate 6 rw [key _ _ _ (by omega)]
    exact if_pos h
  · iterate 7 rw [key _ _ _ (by omega)]

/-- The nine sign patterns of two pairs of integers cover every case. -/
theorem sign_patterns (a b c d : Int) :
    (a = b ∧ c > d) ∨ (a = b ∧ c ≤ d) ∨ (a > b ∧ c = d) ∨ (a > b ∧ c > d) ∨ (a > b ∧ c < d) ∨
      (a < b ∧ c = d) ∨ (a < b ∧ c > d) ∨ (a < b ∧ c < d) := by
  omega

/-- C11: for every agent position and food position, `GetState` returns the
label that the reference rule gives: LEFT if pr = fr and pc > fc; RIGHT if
pr = fr and pc ≤ fc (colocated positions included); UP, UPLEFT, UPRIGHT if
pr > fr and pc = fc, pc > fc, pc < fc; DOWN, DOWNLEFT, DOWNRIGHT if pr < fr
and pc = fc, pc > fc, pc < fc; it is total and its value is always one of
these eight labels. -/
theorem C11_GetState_rule (p : Player) (f : Food) :
    GetState p f = encodeRule p.x p.y f.x f.y ∧
    (p.x = f.x ∧ p.y > f.y → GetState p f = "LEFT") ∧
    (p.x = f.x ∧ p.y ≤ f.y → GetState p f = "RIGHT") ∧
    (p.x = f.x ∧ p.y = f.y → GetState p f = "RIGHT") ∧
    (p.x > f.x ∧ p.y = f.y → GetState p f = "UP") ∧
    (p.x > f.x ∧ p.y > f.y → GetState p f = "UPLEFT") ∧
    (p.x > f.x ∧ p.y < f.y → GetState p f = "UPRIGHT") ∧
    (p.x < f.x ∧ p.y = f.y → GetState p f = "DOWN") ∧
    (p.x < f.x ∧ p.y > f.y → GetState p f = "DOWNLEFT") ∧
    (p.x < f.x ∧ p.y < f.y → GetState p f = "DOWNRIGHT") ∧
    GetState p f ∈ GetState.labels := by
  obtain ⟨g1, g2, g3, g4, g5, g6, g7, g8⟩ := GetState_cases p f
  obtain ⟨e1, e2, e3, e4, e5, e6, e7, e8⟩ := encodeRule_cases p.x p.y f.x f.y
  refine ⟨?_, g1, g2, fun h => g2 ⟨h.1, le_of_eq h.2⟩, g3, g4, g5, g6, g7, g8, ?_⟩
  · rcases sign_patterns p.x f.x p.y f.y with h | h | h | h | h | h | h | h
    · rw [g1 h, e1 h]
    · rw [g2 h, e2 h]
    · rw [g3 h, e3 h]
    · rw [g4 h, e4 h]
    · rw [g5 h, e5 h]
    · rw [g6 h, e6 h]
    · rw [g7 h, e7 h]
    · rw [g8 h, e8 h]
  · rcases sign_patterns p.x f.x p.y f.y with h | h | h | h | h | h | h | h
    · rw [g1 h]; decide
    · rw [g2 h]; decide
    · rw [g3 h]; decide
    · rw [g4 h]; decide
    · rw [g5 h]; decide
    · rw [g6 h]; decide
    · rw [g7 h]; decide
    · rw [g8 h]; decide

/-- C11 at concrete positions: scenario S1 (agent (5, 5), food (5, 7)) gives
RIGHT, and colocated positions give RIGHT. -/
theorem C11_GetState_rule_witness :
    GetState ⟨5, 5⟩ ⟨5, 7⟩ = "RIGHT" ∧ GetState ⟨3, 3⟩ ⟨3, 3⟩ = "RIGHT" :=
  ⟨(C11_GetState_rule ⟨5, 5⟩ ⟨5, 7⟩).2.2.1 (by decide),
   (C11_GetState_rule ⟨3, 3⟩ ⟨3, 3⟩).2.2.2.1 (by decide)⟩

/-- The sign of a difference in the three cases of the comparison. -/
theorem sign_sub_cases (a b : Int) :
    (a < b → Int.sign (a - b) = -1) ∧ (a = b → Int.sign (a - b) = 0) ∧
      (a > b → Int.sign (a - b) = 1) := by
  refine ⟨fun h => Int.sign_eq_neg_one_of_neg (by omega), fun h => ?_,
    fun h => Int.sign_eq_one_of_pos (by omega)⟩
  rw [h, sub_self, Int.sign_zero]

/-- The label is the reference rule applied to the signs of the row and the
column difference. -/
theorem GetState_sign (p : Player) (f : Food) :
    GetState p f = encodeRule (Int.sign (p.x - f.x)) (Int.sign (p.y - f.y)) 0 0 := by
  obtain ⟨g1, g2, g3, g4, g5, g6, g7, g8⟩ := GetState_cases p f
  obtain ⟨xl, xe, xg⟩ := sign_sub_cases p.x f.x
  obtain ⟨yl, ye, yg⟩ := sign_sub_cases p.y f.y
  rcases sign_patterns p.x f.x p.y f.y with h | h | h | h | h | h | h | h
  · rw [g1 h, xe h.1, yg h.2]; decide
  · rw [g2 h]
    rcases lt_or_eq_of_le h.2 with h2 | h2
    · rw [xe h.1, yl h2]; decide
    · rw [xe h.1, ye h2]; decide
  · rw [g3 h, xg h.1, ye h.2]; decide
  · rw [g4 h, xg h.1, yg h.2]; decide
  · rw [g5 h, xg h.1, yl h.2]; decide
  · rw [g6 h, xl h.1, ye h.2]; decide
  · rw [g7 h, xl h.1, yg h.2]; decide
  · rw [g8 h, xl h.1, yl h.2]; decide

/-- C12: the encoder is coordinate-free: shifting the agent and the food by
the same integer offsets (dr, dc) leaves the label unchanged, and two pairs
of positions whose row differences have the same sign and whose column
differences have the same sign get the same label. -/
theorem C12_GetState_coordinate_free (p : Player) (f : Food) :
    (∀ dr dc : Int, GetState ⟨p.x + dr, p.y + dc⟩ ⟨f.x + dr, f.y + dc⟩ = GetState p f) ∧
    (∀ (p2 : Player) (f2 : Food),
      Int.sign (p2.x - f2.x) = Int.sign (p.x - f.x) →
      Int.sign (p2.y - f2.y) = Int.sign (p.y - f.y) →
      GetState p2 f2 = GetState p f) := by
  have hsign : ∀ (p2 : Player) (f2 : Food),
      Int.sign (p2.x - f2.x) = Int.sign (p.x - f.x) →
      Int.sign (p2.y - f2.y) = Int.sign (p.y - f.y) →
      GetState p2 f2 = GetState p f := by
    intro p2 f2 hx hy
    rw [GetState_sign p2 f2, GetState_sign p f, hx, hy]
  refine ⟨?_, hsign⟩
  intro dr dc
  apply hsign
  · show Int.sign (p.x + dr - (f.x + dr)) = Int.sign (p.x - f.x)
    rw [add_sub_add_right_eq_sub]
  · show Int.sign (p.y + dc - (f.y + dc)) = Int.sign (p.y - f.y)
    rw [add_sub_add_right_eq_sub]

/-- C12 at concrete positions: agent (5, 5) and food (5, 7) shifted by
(-3, 2), and the pair (9, 0), (2, 1) against (4, 3), (3, 8). -/
theorem C12_GetState_coordinate_free_witness :
    GetState ⟨5 + -3, 5 + 2⟩ ⟨5 + -3, 7 + 2⟩ = GetState ⟨5, 5⟩ ⟨5, 7⟩ ∧
    GetState ⟨9, 0⟩ ⟨2, 1⟩ = GetState ⟨4, 3⟩ ⟨3, 8⟩ :=
  ⟨(C12_GetState_coordinate_free ⟨5, 5⟩ ⟨5, 7⟩).1 (-3) 2,
   (C12_GetState_coordinate_free ⟨4, 3⟩ ⟨3, 8⟩).2 ⟨9, 0⟩ ⟨2, 1⟩ (by decide) (by decide)⟩

theorem QMap.lookup_eq_none_iff_not_mem (q : QMap) (k : KeyType) :
    q.lookup k = none ↔ k ∉ QMap.keys q := by
  induction q with
  | nil => simp [QMap.keys, List.lookup]
  | cons e q ih =>
    obtain ⟨k1, v1⟩ := e
    by_cases hk : k = k1
    · subst hk; simp [QMap.keys, List.lookup]
    · have hb : (k == k1) = false := by simpa using hk
      simp only [List.lookup, hb, ih, QMap.keys, List.map_cons, List.mem_cons, hk, false_or]

/-- The read `q[key]` of an absent key appends the entry `(key, 0)`. -/
theorem QMap.index_absent (q : QMap) (k : KeyType) (h : k ∉ QMap.keys q) :
    QMap.index q k = (0, q ++ [(k, 0)]) := by
  rw [QMap.index, (QMap.lookup_eq_none_iff_not_mem q k).2 h]

/-- The read `q[key]` of a present key leaves the table as it is. -/
theorem QMap.index_present (q : QMap) (k : KeyType) (h : k ∈ QMap.keys q) :
    (QMap.index q k).2 = q := by
  unfold QMap.index
  cases hl : q.lookup k with
  | some v => rfl
  | none => exact absurd h ((QMap.lookup_eq_none_iff_not_mem q k).1 hl)

/-- C13 (as stated, refuted): on the freshly constructed learner, whose table
is empty, `GetQ("UP", UP)` returns 0 and leaves a table that holds the key
("UP", UP): the read has changed the set of keys. -/
theorem C13_zero_default_counterexample :
    QMap.keys (QLearn.new 0.05 0.1 0.9).q = [] ∧
    ((QLearn.new 0.05 0.1 0.9).GetQ "UP" .UP).1 = 0 ∧
    QMap.keys ((QLearn.new 0.05 0.1 0.9).GetQ "UP" .UP).2.q = [("UP", .UP)] ∧
    QMap.keys ((QLearn.new 0.05 0.1 0.9).GetQ "UP" .UP).2.q
      ≠ QMap.keys (QLearn.new 0.05 0.1 0.9).q := by
  decide

/-- C13 (amended): for every Q-table and every (state, action) key not
present in it, `GetQ(state, action)` returns 0 and materialises the key: the
table after the read is the table before it with the entry (key, 0) added, so
its keys are the old keys and the new one, and every key reads the same value
after the read as before it. -/
theorem C13_zero_default (l : QLearn) (state : String) (action : Direction)
    (h : (state, action) ∉ QMap.keys l.q) :
    (l.GetQ state action).1 = 0 ∧
    (l.GetQ state action).2.q = l.q ++ [((state, action), 0)] ∧
    QMap.keys (l.GetQ state action).2.q = QMap.keys l.q ++ [(state, action)] ∧
    (∀ k, QMap.read (l.GetQ state action).2.q k = QMap.read l.q k) := by
  have hq : (l.GetQ state action).2.q = l.q ++ [((state, action), 0)] := by
    simp only [QLearn.GetQ, QMap.index_absent l.q _ h]
  refine ⟨?_, hq, ?_, fun k => QLearn.GetQ_snd_read l state action k⟩
  · simp only [QLearn.GetQ, QMap.index_absent l.q _ h]
  · rw [hq]
    simp [QMap.keys]

/-- C13 (amended) at the learner whose table holds only Q("UP", UP) = 1, read
at the absent key ("UP", DOWN). -/
theorem C13_zero_default_witness :
    (QLearn.upBest.GetQ "UP" .DOWN).1 = 0 ∧
    (QLearn.upBest.GetQ "UP" .DOWN).2.q = QLearn.upBest.q ++ [(("UP", .DOWN), 0)] :=
  ⟨(C13_zero_default QLearn.upBest "UP" .DOWN (by decide)).1,
   (C13_zero_default QLearn.upBest "UP" .DOWN (by decide)).2.1⟩

namespace Board

theorem row_set (row : List Int) (c : Nat) (v : Int) (f : Nat → Int)
    (hrow : row = (List.range 10).map f) :
    row.set c v = (List.range 10).map (fun j => if j = c then v else f j) := by
  subst hrow
  apply List.ext_getElem (by simp)
  intro j h1 h2
  simp only [List.getElem_set, List.getElem_map, List.getElem_range]
  by_cases hjc : c = j
  · subst hjc; simp
  · have : ¬ j = c := fun h => hjc h.symm
    simp [hjc, this]

/-- Writing one cell of a 10x10 grid given by a function of the indexes. -/
theorem grid_set (G : List (List Int)) (a c : Nat) (v : Int) (f : Nat → Nat → Int)
    (ha : a < 10)
    (hG : G = (List.range 10).map (fun i => (List.range 10).map (f i))) :
    G.set a ((G.getD a []).set c v)
      = (List.range 10).map (fun i => (List.range 10).map
          (fun j => if i = a ∧ j = c then v else f i j)) := by
  have hrow : G.getD a [] = (List.range 10).map (f a) := by
    subst hG
    rw [List.getD_eq_getElem _ _ (by simpa using ha)]
    simp
  rw [hrow, row_set _ c v (f a) rfl]
  subst hG
  apply List.ext_getElem (by simp)
  intro i h1 h2
  simp only [List.getElem_set, List.getElem_map, List.getElem_range]
  by_cases hia : a = i
  · subst hia; simp
  · have : ¬ i = a := fun h => hia h.symm
    simp [hia, this]

theorem ResetCells_cells (b : Board) :
    (ResetCells b).cells_
      = (List.range 10).map (fun _ => (List.range 10).map (fun _ => (0 : Int))) := by
  simp only [ResetCells]
  decide

/-- With both positions on the board, `UpdateCells` leaves the grid that the
positions determine. -/
theorem UpdateCells_cells (b : Board) (hp : InBounds (b.player_.x, b.player_.y))
    (hf : InBounds (b.food_.x, b.food_.y)) :
    (UpdateCells b).cells_ = b.projection := by
  obtain ⟨hp1, hp2, hp3, hp4⟩ := hp
  obtain ⟨hf1, hf2, hf3, hf4⟩ := hf
  simp only [height, width] at hp2 hp4 hf2 hf4
  obtain ⟨a, ha⟩ : ∃ a : Nat, b.player_.x = (a : Int) := Int.eq_ofNat_of_zero_le hp1
  obtain ⟨c, hc⟩ : ∃ c : Nat, b.player_.y = (c : Int) := Int.eq_ofNat_of_zero_le hp3
  obtain ⟨e, he⟩ : ∃ e : Nat, b.food_.x = (e : Int) := Int.eq_ofNat_of_zero_le hf1
  obtain ⟨g, hg⟩ : ∃ g : Nat, b.food_.y = (g : Int) := Int.eq_ofNat_of_zero_le hf3
  have ha10 : a < 10 := by omega
  have he10 : e < 10 := by omega
  have hgp : (0 : Int) ≤ (a : Int) ∧ (a : Int) < 10 ∧ (0 : Int) ≤ (c : Int) ∧ (c : Int) < 10 := by
    omega
  have hgf : (0 : Int) ≤ (e : Int) ∧ (e : Int) < 10 ∧ (0 : Int) ≤ (g : Int) ∧ (g : Int) < 10 := by
    omega
  simp only [UpdateCells, SetCell, projection, ha, hc, he, hg, height, width, if_pos hgp,
    if_pos hgf, Int.toNat_ofNat, ResetCells_cells]
  rw [grid_set _ a c 1 (fun _ _ => 0) ha10 rfl, grid_set _ e g 2 _ he10 rfl]
  have h10 : (10 : Int).toNat = 10 := rfl
  simp only [h10, Nat.cast_inj]

end Board

namespace Board

/-- The constructed board: player at (0, 0), food on the board, score 0, and
the grid is the projection of the positions. -/
theorem new_spec (garbage : Food) (fuel : Nat) (dr : Draws) (r : Board × Draws)
    (h : Board.new garbage fuel dr = some r) :
    r.1.player_ = ⟨0, 0⟩ ∧ InBounds (r.1.food_.x, r.1.food_.y) ∧ r.1.score_ = 0 ∧
      r.1.cells_ = r.1.projection := by
  unfold Board.new at h
  cases hm : MakeFood fuel { cells_ := [], player_ := ⟨0, 0⟩, food_ := garbage, score_ := 0 } dr with
  | none => rw [hm] at h; simp at h
  | some x =>
    rw [hm] at h
    have hx := (MakeFood_spec _ _ _ _ hm).1
    have := (Option.some.inj h).symm
    subst this
    have h00 : InBounds ((0 : Int), (0 : Int)) := by decide
    exact ⟨rfl, hx, rfl, UpdateCells_cells _ h00 hx⟩

/-- One call of `Move` keeps both positions on the board and keeps the grid
the projection of the positions. -/
theorem Move_preserves (fuel : Nat) (b : Board) (d : Direction) (dr : Draws)
    (hp : InBounds (b.player_.x, b.player_.y)) (hf : InBounds (b.food_.x, b.food_.y))
    (r : Bool × Board × Draws) (hr : Move fuel b d dr = some r) :
    InBounds (r.2.1.player_.x, r.2.1.player_.y) ∧ InBounds (r.2.1.food_.x, r.2.1.food_.y) ∧
      (b.cells_ = b.projection → r.2.1.cells_ = r.2.1.projection) := by
  by_cases hin : InBounds (b.Target d)
  · by_cases hc : (b.Target d).1 = b.food_.x ∧ (b.Target d).2 = b.food_.y
    · rw [Move_capture fuel b d dr hin hc] at hr
      cases hm : MakeFood fuel
        { b with player_ := ⟨(b.Target d).1, (b.Target d).2⟩, score_ := b.score_ + 100 } dr with
      | none => rw [hm] at hr; simp at hr
      | some x =>
        have hx := (MakeFood_spec _ _ _ _ hm).1
        rw [hm] at hr
        have := (Option.some.inj hr).symm
        subst this
        exact ⟨hin, hx, fun _ => UpdateCells_cells _ hin hx⟩
    · rw [Move_step fuel b d dr hin hc] at hr
      have := (Option.some.inj hr).symm
      subst this
      exact ⟨hin, hf, fun _ => UpdateCells_cells _ hin hf⟩
  · rw [Move_out fuel b d dr hin] at hr
    have := (Option.some.inj hr).symm
    subst this
    exact ⟨hp, hf, fun h => h⟩

/-- Every reachable board has both positions on the board and a grid that is
the projection of the positions. -/
theorem Reachable_inv (b : Board) (h : Reachable b) :
    InBounds (b.player_.x, b.player_.y) ∧ InBounds (b.food_.x, b.food_.y) ∧
      b.cells_ = b.projection := by
  induction h with
  | construct garbage fuel dr r hnew =>
    obtain ⟨h1, h2, _, h4⟩ := new_spec garbage fuel dr r hnew
    refine ⟨?_, h2, h4⟩
    rw [h1]
    decide
  | move b d fuel dr r _ hmove ih =>
    obtain ⟨h1, h2, h3⟩ := Move_preserves fuel b d dr ih.1 ih.2.1 r hmove
    exact ⟨h1, h2, h3 ih.2.2⟩

/-- On a 10x10 grid the access at a position on the board is in range. -/
theorem IndexInRange_grid (f : Nat → Nat → Int) (x y : Int) (h : InBounds (x, y)) :
    IndexInRange ((List.range 10).map (fun i => (List.range 10).map (f i))) x y := by
  obtain ⟨h1, h2, h3, h4⟩ := h
  simp only [height, width] at h2 h4
  have hx : x.toNat < 10 := by omega
  have hy : y.toNat < 10 := by omega
  refine ⟨h1, by simpa using hx, h3, ?_⟩
  rw [List.getD_eq_getElem _ _ (by simpa using hx)]
  simpa using hy

/-- The entries of the projection grid. -/
theorem projection_entry (b : Board) (i j : Nat) (hi : i < 10) (hj : j < 10) :
    (b.projection.getD i []).getD j 0 =
      if (i : Int) = b.food_.x ∧ (j : Int) = b.food_.y then 2
      else if (i : Int) = b.player_.x ∧ (j : Int) = b.player_.y then 1 else 0 := by
  have h10 : (10 : Int).toNat = 10 := rfl
  simp only [projection, height, width, h10]
  have hrow : ((List.range 10).map (fun (i : Nat) => (List.range 10).map (fun (j : Nat) =>
      if (i : Int) = b.food_.x ∧ (j : Int) = b.food_.y then (2 : Int)
      else if (i : Int) = b.player_.x ∧ (j : Int) = b.player_.y then 1 else 0))).getD i []
      = (List.range 10).map (fun (j : Nat) =>
      if (i : Int) = b.food_.x ∧ (j : Int) = b.food_.y then (2 : Int)
      else if (i : Int) = b.player_.x ∧ (j : Int) = b.player_.y then 1 else 0) := by
    rw [List.getD_eq_getElem _ _ (by simpa using hi)]
    simp only [List.getElem_map, List.getElem_range]
  rw [hrow, List.getD_eq_getElem _ _ (by simpa using hj)]
  simp only [List.getElem_map, List.getElem_range]

end Board

namespace Board

/-- Writing a cell at a position on the board of a 10x10 grid. -/
theorem SetCell_grid (f : Nat → Nat → Int) (x y v : Int) (h : InBounds (x, y)) :
    SetCell ((List.range 10).map (fun i => (List.range 10).map (f i))) x y v
      = (List.range 10).map (fun i => (List.range 10).map
          (fun j => if i = x.toNat ∧ j = y.toNat then v else f i j)) := by
  have h2 : x.toNat < 10 := by
    have := h.1
    have := h.2.1
    simp only [height] at this
    omega
  have hg : 0 ≤ x ∧ x < height ∧ 0 ≤ y ∧ y < width := h
  rw [SetCell, if_pos hg]
  exact grid_set _ x.toNat y.toNat v f h2 rfl

end Board

/-- C14: if the agent's and the food's positions both lie in [0,10) x [0,10)
before `Move`, then for every action, every draws and every result of `Move`
they both lie in [0,10) x [0,10) after it; the constructed board has the agent
at (0, 0) and a food on the board; so both positions are on the board in every
reachable board, and there the two grid accesses of `UpdateCells` (the
player's cell on the reset grid, then the food's cell) are in range. -/
theorem C14_in_bounds (b : Board) (d : Direction) (fuel : Nat) (dr : Draws)
    (hp : Board.InBounds (b.player_.x, b.player_.y))
    (hf : Board.InBounds (b.food_.x, b.food_.y)) :
    (∀ r, Board.Move fuel b d dr = some r →
      Board.InBounds (r.2.1.player_.x, r.2.1.player_.y) ∧
      Board.InBounds (r.2.1.food_.x, r.2.1.food_.y)) ∧
    (∀ (garbage : Food) (fuel0 : Nat) (dr0 : Draws) (r0 : Board × Draws),
      Board.new garbage fuel0 dr0 = some r0 →
      r0.1.player_ = ⟨0, 0⟩ ∧ Board.InBounds (r0.1.food_.x, r0.1.food_.y)) ∧
    (∀ b1 : Board, Board.Reachable b1 →
      Board.InBounds (b1.player_.x, b1.player_.y) ∧
      Board.InBounds (b1.food_.x, b1.food_.y) ∧
      Board.IndexInRange (Board.ResetCells b1).cells_ b1.player_.x b1.player_.y ∧
      Board.IndexInRange
        (Board.SetCell (Board.ResetCells b1).cells_ b1.player_.x b1.player_.y 1)
        b1.food_.x b1.food_.y) := by
  refine ⟨?_, ?_, ?_⟩
  · intro r hr
    obtain ⟨h1, h2, _⟩ := Board.Move_preserves fuel b d dr hp hf r hr
    exact ⟨h1, h2⟩
  · intro garbage fuel0 dr0 r0 h0
    obtain ⟨h1, h2, _⟩ := Board.new_spec garbage fuel0 dr0 r0 h0
    exact ⟨h1, h2⟩
  · intro b1 hb1
    obtain ⟨h1, h2, _⟩ := Board.Reachable_inv b1 hb1
    refine ⟨h1, h2, ?_, ?_⟩
    · rw [Board.ResetCells_cells]
      exact Board.IndexInRange_grid _ _ _ h1
    · rw [Board.ResetCells_cells, Board.SetCell_grid _ _ _ _ h1]
      exact Board.IndexInRange_grid _ _ _ h2

/-- C14 at scenario S1 after its first move: the capturing move RIGHT with
the respawn draws 3, 4 leaves the agent at (5, 7) and the food at (3, 4),
both on the board. -/
theorem C14_in_bounds_witness :
    (Board.Move 1 Board.scenarioS1b .RIGHT (Draws.ofList [3, 4])).map
      (fun r => (r.2.1.player_, r.2.1.food_)) = some (⟨5, 7⟩, ⟨3, 4⟩) ∧
    (∀ r, Board.Move 1 Board.scenarioS1b .RIGHT (Draws.ofList [3, 4]) = some r →
      Board.InBounds (r.2.1.player_.x, r.2.1.player_.y) ∧
      Board.InBounds (r.2.1.food_.x, r.2.1.food_.y)) :=
  ⟨by decide,
   (C14_in_bounds Board.scenarioS1b .RIGHT 1 (Draws.ofList [3, 4]) (by decide) (by decide)).1⟩

/-- C16: the grid returned by `cells()` is the projection of the positions
after construction and after every call of `Move` on a reachable board,
whatever it returns; the projection is the 10x10 grid with 2 at the food's
cell, 1 at the agent's cell when that differs from the food's cell, and 0
everywhere else. -/
theorem C16_cells_projection :
    (∀ (garbage : Food) (fuel : Nat) (dr : Draws) (r : Board × Draws),
      Board.new garbage fuel dr = some r → r.1.cells = r.1.projection) ∧
    (∀ (b : Board) (d : Direction) (fuel : Nat) (dr : Draws) (r : Bool × Board × Draws),
      Board.Reachable b → Board.Move fuel b d dr = some r →
      r.2.1.cells = r.2.1.projection) ∧
    (∀ b : Board, b.projection.length = 10 ∧ (∀ row ∈ b.projection, row.length = 10) ∧
      ∀ i j : Nat, i < 10 → j < 10 →
        (b.projection.getD i []).getD j 0 =
          if (i : Int) = b.food_.x ∧ (j : Int) = b.food_.y then 2
          else if (i : Int) = b.player_.x ∧ (j : Int) = b.player_.y then 1 else 0) := by
  refine ⟨?_, ?_, ?_⟩
  · intro garbage fuel dr r h
    exact (Board.new_spec garbage fuel dr r h).2.2.2
  · intro b d fuel dr r hb hr
    exact (Board.Reachable_inv r.2.1 (Board.Reachable.move b d fuel dr r hb hr)).2.2
  · intro b
    have h10 : (10 : Int).toNat = 10 := rfl
    refine ⟨?_, ?_, Board.projection_entry b⟩
    · simp [Board.projection, Board.height, h10]
    · intro row hrow
      simp only [Board.projection, Board.height, Board.width, h10, List.mem_map] at hrow
      obtain ⟨i, _, hi⟩ := hrow
      rw [← hi]
      simp

/-- C16 at concrete boards: the board constructed with the draws 3, 4, and
the board left by the rejected move UP on it (agent at (0, 0), food at
(3, 4)). -/
theorem C16_cells_projection_witness :
    (Board.new ⟨0, 5⟩ 1 (Draws.ofList [3, 4])).map (fun r => r.1.cells)
      = some Board.scenarioS2.projection ∧
    (∀ r, Board.new ⟨0, 5⟩ 1 (Draws.ofList [3, 4]) = some r → r.1.cells = r.1.projection) ∧
    (Board.scenarioS2.projection.getD 3 []).getD 4 0 = 2 ∧
    (Board.scenarioS2.projection.getD 0 []).getD 0 0 = 1 :=
  ⟨by decide, C16_cells_projection.1 ⟨0, 5⟩ 1 (Draws.ofList [3, 4]), by decide, by decide⟩

namespace QLearn

/-- The table left by the first loop of `ChooseAction`, as a function of the
table alone. -/
theorem Fill_snd_q (l : QLearn) (s : String) :
    (l.Fill s).2.q
      = (QMap.index (QMap.index (QMap.index (QMap.index l.q (s, .UP)).2 (s, .DOWN)).2
          (s, .LEFT)).2 (s, .RIGHT)).2 := by
  have h4 : List.range 4 = [0, 1, 2, 3] := by decide
  simp only [Fill, h4, List.foldl_cons, List.foldl_nil, FillStep, GetQ, Direction.ofIndex]

/-- The table left by the loop of `Learn`, as a function of the table alone. -/
theorem LearnMax_snd_q (l : QLearn) (s2 : String) :
    (l.LearnMax s2).2.q
      = (QMap.index (QMap.index (QMap.index (QMap.index l.q (s2, .UP)).2 (s2, .DOWN)).2
          (s2, .LEFT)).2 (s2, .RIGHT)).2 := by
  have h4 : List.range Direction.NUM_DIRECTIONS.toNat = [0, 1, 2, 3] := by decide
  simp only [LearnMax, h4, List.foldl_cons, List.foldl_nil, LearnStep, GetQ, Direction.ofIndex]

/-- The table left by `Learn`, as a function of the table alone: the constants
of the update are 0.3 and 0.8. -/
theorem Learn_snd_q (l : QLearn) (s : String) (a : Direction) (r : ℚ) (s2 : String) :
    (l.Learn s a r s2).2.q
      = QMap.assign
          (QMap.index (QMap.index (QMap.index (QMap.index (QMap.index l.q (s2, .UP)).2
            (s2, .DOWN)).2 (s2, .LEFT)).2 (s2, .RIGHT)).2 (s, a)).2 (s, a)
          (QMap.read l.q (s, a) + 0.3 * (r + 0.8 *
            (max (QMap.read l.q (s2, .RIGHT)) (max (QMap.read l.q (s2, .LEFT))
              (max (QMap.read l.q (s2, .DOWN)) (max (QMap.read l.q (s2, .UP)) 0))))
            - QMap.read l.q (s, a))) := by
  simp only [Learn, QMap.index_fst, LearnMax_fst, LearnMax_snd_q, QMap.read_index_snd]

end QLearn

/-- C18: for every table, s, a, r and s', the value that `Learn(s, a, r, s')`
leaves at (s, a) is q0 + 0.3 * (r + 0.8 * M - q0), where q0 = Q(s, a) and
M = max(0, Q(s', UP), Q(s', DOWN), Q(s', LEFT), Q(s', RIGHT)) are read before
the call; M is the true maximum of the four values whenever one of them is
at least 0, and M is 0 when all four are negative. -/
theorem C18_bootstrap_term (l : QLearn) (s : String) (a : Direction) (r : ℚ) (s2 : String) :
    ((l.Learn s a r s2).2.GetQ s a).1
      = (l.GetQ s a).1 + 0.3 * (r + 0.8 *
          (max 0 (max (l.GetQ s2 .UP).1 (max (l.GetQ s2 .DOWN).1
            (max (l.GetQ s2 .LEFT).1 (l.GetQ s2 .RIGHT).1))))
          - (l.GetQ s a).1) ∧
    ((∃ b ∈ Direction.actions, 0 ≤ (l.GetQ s2 b).1) →
      ((l.Learn s a r s2).2.GetQ s a).1
        = (l.GetQ s a).1 + 0.3 * (r + 0.8 *
            (max (l.GetQ s2 .UP).1 (max (l.GetQ s2 .DOWN).1
              (max (l.GetQ s2 .LEFT).1 (l.GetQ s2 .RIGHT).1)))
            - (l.GetQ s a).1)) ∧
    ((∀ b ∈ Direction.actions, (l.GetQ s2 b).1 < 0) →
      ((l.Learn s a r s2).2.GetQ s a).1
        = (l.GetQ s a).1 + 0.3 * (r + 0.8 * 0 - (l.GetQ s a).1)) := by
  have hM : (l.LearnMax s2).1
      = max 0 (max (l.GetQ s2 .UP).1 (max (l.GetQ s2 .DOWN).1
          (max (l.GetQ s2 .LEFT).1 (l.GetQ s2 .RIGHT).1))) := by
    rw [QLearn.LearnMax_fst]
    simp only [QLearn.GetQ_fst]
    ac_rfl
  have hval : ((l.Learn s a r s2).2.GetQ s a).1
      = (l.GetQ s a).1 + 0.3 * (r + 0.8 * (l.LearnMax s2).1 - (l.GetQ s a).1) := by
    rw [QLearn.GetQ_fst, QLearn.Learn_read, if_pos rfl, QLearn.GetQ_fst]
  refine ⟨by rw [hval, hM], ?_, ?_⟩
  · rintro ⟨b, hb, hb0⟩
    rw [hval, hM]
    have hle : (0 : ℚ) ≤ max (l.GetQ s2 .UP).1 (max (l.GetQ s2 .DOWN).1
        (max (l.GetQ s2 .LEFT).1 (l.GetQ s2 .RIGHT).1)) := by
      simp only [Direction.actions, List.mem_cons, List.mem_singleton, List.not_mem_nil,
        or_false] at hb
      simp only [le_max_iff]
      rcases hb with rfl | rfl | rfl | rfl
      · exact Or.inl hb0
      · exact Or.inr (Or.inl hb0)
      · exact Or.inr (Or.inr (Or.inl hb0))
      · exact Or.inr (Or.inr (Or.inr hb0))
    rw [max_eq_right hle]
  · intro hneg
    rw [hval, hM]
    have hU := hneg .UP (by decide)
    have hD := hneg .DOWN (by decide)
    have hL := hneg .LEFT (by decide)
    have hR := hneg .RIGHT (by decide)
    have hle : max (l.GetQ s2 .UP).1 (max (l.GetQ s2 .DOWN).1
        (max (l.GetQ s2 .LEFT).1 (l.GetQ s2 .RIGHT).1)) ≤ 0 := by
      simp only [max_le_iff]
      exact ⟨le_of_lt hU, le_of_lt hD, le_of_lt hL, le_of_lt hR⟩
    rw [max_eq_left hle]

/-- C18 at the learner after four updates (all four values of state "UP" are
-9/10, so M = 0) and at the table of scenario S4 (M = 1). -/
theorem C18_bootstrap_term_witness :
    ((QLearn.afterFourSteps.Learn "UP" .UP (-3) "UP").2.GetQ "UP" .UP).1
      = (QLearn.afterFourSteps.GetQ "UP" .UP).1
        + 0.3 * (-3 + 0.8 * 0 - (QLearn.afterFourSteps.GetQ "UP" .UP).1) ∧
    ((QLearn.scenarioS4.Learn "UP" .UP (-3) "UPRIGHT").2.GetQ "UP" .UP).1
      = (QLearn.scenarioS4.GetQ "UP" .UP).1 + 0.3 * (-3 + 0.8 *
          (max (QLearn.scenarioS4.GetQ "UPRIGHT" .UP).1
            (max (QLearn.scenarioS4.GetQ "UPRIGHT" .DOWN).1
              (max (QLearn.scenarioS4.GetQ "UPRIGHT" .LEFT).1
                (QLearn.scenarioS4.GetQ "UPRIGHT" .RIGHT).1)))
          - (QLearn.scenarioS4.GetQ "UP" .UP).1) :=
  ⟨(C18_bootstrap_term QLearn.afterFourSteps "UP" .UP (-3) "UP").2.2 (by decide!),
   (C18_bootstrap_term QLearn.scenarioS4 "UP" .UP (-3) "UPRIGHT").2.1
     ⟨.UP, by decide, by decide⟩⟩

/-- C19: for every table and every call `Learn(s, a, r, s')`, every key
(s2, a2) other than (s, a) reads the same value after the call as before it,
an unseen key reading as 0. -/
theorem C19_Learn_frame (l : QLearn) (s : String) (a : Direction) (r : ℚ) (s' : String)
    (s2 : String) (a2 : Direction) (h : (s2, a2) ≠ (s, a)) :
    ((l.Learn s a r s').2.GetQ s2 a2).1 = (l.GetQ s2 a2).1 := by
  rw [QLearn.GetQ_fst, QLearn.Learn_read, if_neg h, QLearn.GetQ_fst]

/-- C19 at the learner after four updates: the update of ("UP", UP) leaves
Q("UP", DOWN) = -9/10 and the unseen Q("DOWN", UP) = 0. -/
theorem C19_Learn_frame_witness :
    ((QLearn.afterFourSteps.Learn "UP" .UP (-3) "UP").2.GetQ "UP" .DOWN).1
      = (QLearn.afterFourSteps.GetQ "UP" .DOWN).1 ∧
    ((QLearn.afterFourSteps.Learn "UP" .UP (-3) "UP").2.GetQ "DOWN" .UP).1
      = (QLearn.afterFourSteps.GetQ "DOWN" .UP).1 :=
  ⟨C19_Learn_frame QLearn.afterFourSteps "UP" .UP (-3) "UP" "UP" .DOWN (by decide),
   C19_Learn_frame QLearn.afterFourSteps "UP" .UP (-3) "UP" "DOWN" .UP (by decide)⟩


namespace QMap

/-- The read `q[key]` leaves the table as it is, or appends the entry
`(key, 0)` for a key that was absent. -/
theorem index_snd_cases (q : QMap) (k : KeyType) :
    (QMap.index q k).2 = q ∨ ((QMap.index q k).2 = q ++ [(k, 0)] ∧ k ∉ QMap.keys q) := by
  by_cases h : k ∈ QMap.keys q
  · exact Or.inl (QMap.index_present q k h)
  · right
    rw [QMap.index_absent q k h]
    exact ⟨rfl, h⟩

/-- The statement `q[key] = v` keeps the keys of the table, or appends the
entry `(key, v)` for a key that was absent. -/
theorem assign_cases (q : QMap) (k : KeyType) (v : ℚ) :
    (QMap.assign q k v = q.map (fun e => if e.1 = k then (e.1, v) else e) ∧
        (QMap.assign q k v).map Prod.fst = q.map Prod.fst) ∨
      (QMap.assign q k v = q ++ [(k, v)] ∧ k ∉ QMap.keys q) := by
  unfold QMap.assign
  cases hl : q.lookup k with
  | some w =>
    left
    refine ⟨rfl, ?_⟩
    rw [List.map_map]
    apply List.map_congr_left
    intro e _
    simp only [Function.comp]
    split_ifs <;> rfl
  | none =>
    right
    exact ⟨rfl, (QMap.lookup_eq_none_iff_not_mem q k).1 hl⟩

theorem WellKeyed_append (q : QMap) (k : KeyType) (v : ℚ) (h : QMap.WellKeyed q)
    (hk : k ∉ QMap.keys q) (h1 : k.1 ∈ GetState.labels) (h2 : k.2 ∈ Direction.actions) :
    QMap.WellKeyed (q ++ [(k, v)]) := by
  obtain ⟨hn, hm⟩ := h
  constructor
  · rw [List.map_append, List.map_singleton]
    apply List.Nodup.append hn (List.nodup_singleton _)
    intro x hx hx2
    rw [List.mem_singleton] at hx2
    subst hx2
    exact hk hx
  · intro x hx
    rw [List.map_append, List.map_singleton, List.mem_append, List.mem_singleton] at hx
    rcases hx with hx | hx
    · exact hm x hx
    · subst hx
      exact ⟨h1, h2⟩

theorem WellKeyed_index (q : QMap) (k : KeyType) (h : QMap.WellKeyed q)
    (h1 : k.1 ∈ GetState.labels) (h2 : k.2 ∈ Direction.actions) :
    QMap.WellKeyed (QMap.index q k).2 := by
  rcases QMap.index_snd_cases q k with he | ⟨he, hk⟩
  · rw [he]; exact h
  · rw [he]; exact QMap.WellKeyed_append q k 0 h hk h1 h2

theorem WellKeyed_assign (q : QMap) (k : KeyType) (v : ℚ) (h : QMap.WellKeyed q)
    (h1 : k.1 ∈ GetState.labels) (h2 : k.2 ∈ Direction.actions) :
    QMap.WellKeyed (QMap.assign q k v) := by
  rcases QMap.assign_cases q k v with ⟨_, he⟩ | ⟨he, hk⟩
  · unfold QMap.WellKeyed
    rw [he]
    exact h
  · rw [he]; exact QMap.WellKeyed_append q k v h hk h1 h2

/-- A table with pairwise different keys, each a label and an action, has at
most 8 * 4 = 32 entries. -/
theorem WellKeyed_length (q : QMap) (h : QMap.WellKeyed q) : q.length ≤ 32 := by
  obtain ⟨hn, hm⟩ := h
  have hsub : q.map Prod.fst ⊆ List.product GetState.labels Direction.actions := by
    intro k hk
    obtain ⟨h1, h2⟩ := hm k hk
    exact List.mem_product.2 ⟨h1, h2⟩
  have hlen := (List.Nodup.subperm hn hsub).length_le
  rw [List.length_map] at hlen
  have h32 : (List.product GetState.labels Direction.actions).length = 32 := by decide
  rw [h32] at hlen
  exact hlen

end QMap

theorem GetState_mem_labels (p : Player) (f : Food) : GetState p f ∈ GetState.labels := by
  obtain ⟨g1, g2, g3, g4, g5, g6, g7, g8⟩ := GetState_cases p f
  rcases sign_patterns p.x f.x p.y f.y with h | h | h | h | h | h | h | h
  · rw [g1 h]; decide
  · rw [g2 h]; decide
  · rw [g3 h]; decide
  · rw [g4 h]; decide
  · rw [g5 h]; decide
  · rw [g6 h]; decide
  · rw [g7 h]; decide
  · rw [g8 h]; decide

namespace QLearn

/-- The action returned by `ChooseAction` is one of the four actions. -/
theorem ChooseAction_mem_actions (l : QLearn) (s : String) (dr : Draws) :
    (l.ChooseAction s dr).1 ∈ Direction.actions := by
  by_cases hx : l.explores (dr 0) = true
  · rw [ChooseAction_explore l s dr hx]
    exact ofIndex_mem_actions _ (Nat.mod_lt _ (by norm_num))
  · have hx1 : l.explores (dr 0) = false := by simpa using hx
    rw [ChooseAction_greedy l s dr hx1]
    have hne : Indexes (l.Fill s).1 ≠ [] := by
      rw [Fill_fst]; exact Indexes_ne_nil _ _ _ _
    obtain ⟨_, _, hmem⟩ := getD_mod_mem _ (dr 1) 4 hne
    exact ofIndex_mem_actions _ ((Indexes_mem _ _).1 hmem).1

/-- The table left by `ChooseAction` is the table itself in the exploration
branch and the table after the four reads in the greedy branch. -/
theorem ChooseAction_snd_q (l : QLearn) (s : String) (dr : Draws) :
    (l.ChooseAction s dr).2.1.q = l.q ∨ (l.ChooseAction s dr).2.1.q = (l.Fill s).2.q := by
  by_cases hx : l.explores (dr 0) = true
  · left; simp [ChooseAction, hx]
  · right; simp [ChooseAction, hx]

theorem WellKeyed_Fill (l : QLearn) (s : String) (h : QMap.WellKeyed l.q)
    (hs : s ∈ GetState.labels) : QMap.WellKeyed (l.Fill s).2.q := by
  have hU : Direction.UP ∈ Direction.actions := by decide
  have hD : Direction.DOWN ∈ Direction.actions := by decide
  have hL : Direction.LEFT ∈ Direction.actions := by decide
  have hR : Direction.RIGHT ∈ Direction.actions := by decide
  rw [Fill_snd_q]
  exact QMap.WellKeyed_index _ _ (QMap.WellKeyed_index _ _ (QMap.WellKeyed_index _ _
    (QMap.WellKeyed_index _ _ h hs hU) hs hD) hs hL) hs hR

theorem WellKeyed_ChooseAction (l : QLearn) (s : String) (dr : Draws)
    (h : QMap.WellKeyed l.q) (hs : s ∈ GetState.labels) :
    QMap.WellKeyed (l.ChooseAction s dr).2.1.q := by
  rcases ChooseAction_snd_q l s dr with he | he
  · rw [he]; exact h
  · rw [he]; exact WellKeyed_Fill l s h hs

theorem WellKeyed_Learn (l : QLearn) (s : String) (a : Direction) (r : ℚ) (s2 : String)
    (h : QMap.WellKeyed l.q) (hs : s ∈ GetState.labels) (ha : a ∈ Direction.actions)
    (hs2 : s2 ∈ GetState.labels) : QMap.WellKeyed (l.Learn s a r s2).2.q := by
  have hU : Direction.UP ∈ Direction.actions := by decide
  have hD : Direction.DOWN ∈ Direction.actions := by decide
  have hL : Direction.LEFT ∈ Direction.actions := by decide
  have hR : Direction.RIGHT ∈ Direction.actions := by decide
  rw [Learn_snd_q]
  exact QMap.WellKeyed_assign _ _ _ (QMap.WellKeyed_index _ _ (QMap.WellKeyed_index _ _
    (QMap.WellKeyed_index _ _ (QMap.WellKeyed_index _ _ (QMap.WellKeyed_index _ _ h hs2
    hU) hs2 hD) hs2 hL) hs2 hR) hs ha) hs ha

end QLearn

namespace Main

/-- The fields of the state that `start` produces. -/
theorem start_spec (garbage : Food) (fuel : Nat) (dr0 dr1 : Draws) (st : Main.State)
    (h : Main.start garbage fuel dr0 dr1 = some st) :
    st.q = QLearn.new 0.05 0.1 0.9 ∧ st.previous_score = 0 ∧ st.b.score_ = 0 ∧
      Board.Reachable st.b := by
  unfold Main.start at h
  cases hb : Board.new garbage fuel dr0 with
  | none => rw [hb] at h; simp at h
  | some r =>
    rw [hb] at h
    have := (Option.some.inj h).symm
    subst this
    exact ⟨rfl, rfl, (Board.new_spec garbage fuel dr0 r hb).2.2.1,
      Board.Reachable.construct garbage fuel dr0 r hb⟩

/-- The fields of the state that one iteration produces, in terms of the
action chosen and the result of `Move`. -/
theorem iteration_spec (fuel : Nat) (st st2 : Main.State)
    (h : Main.iteration fuel st = some st2) :
    ∃ m, st.b.Move fuel (st.q.ChooseAction (GetState st.b.player_ st.b.food_) st.draws).1
        (st.q.ChooseAction (GetState st.b.player_ st.b.food_) st.draws).2.2 = some m ∧
      st2.b = m.2.1 ∧ st2.previous_score = m.2.1.score_ ∧
      (st2.q = ((st.q.ChooseAction (GetState st.b.player_ st.b.food_) st.draws).2.1.Learn
          (GetState st.b.player_ st.b.food_)
          (st.q.ChooseAction (GetState st.b.player_ st.b.food_) st.draws).1
          ((m.2.1.score_ - st.previous_score : Int) : ℚ)
          (GetState m.2.1.player_ m.2.1.food_)).2 ∨
        st2.q = (st.q.ChooseAction (GetState st.b.player_ st.b.food_) st.draws).2.1) := by
  unfold Main.iteration at h
  cases hm : st.b.Move fuel (st.q.ChooseAction (GetState st.b.player_ st.b.food_) st.draws).1
      (st.q.ChooseAction (GetState st.b.player_ st.b.food_) st.draws).2.2 with
  | none => rw [hm] at h; simp at h
  | some m =>
    rw [hm] at h
    have := (Option.some.inj h).symm
    subst this
    refine ⟨m, rfl, rfl, rfl, ?_⟩
    by_cases hc : (st.stop || decide (st.previous_score < 100000)) = true
    · left; simp only [hc, if_true, Board.score]
    · right; simp only [hc, if_false]; simp

end Main

namespace Main

theorem start_sample :
    Main.start ⟨0, 5⟩ 1 (Draws.ofList [3, 4]) (Draws.ofList [500, 3]) = some Main.sample := by
  rfl

/-- In every reachable state of the driver the keys of the table are pairwise
different pairs of a label of the encoder and one of the four actions. -/
theorem Reachable_WellKeyed (st : Main.State) (h : Main.Reachable st) :
    QMap.WellKeyed st.q.q := by
  induction h with
  | start garbage fuel dr0 dr1 st hst =>
    rw [(start_spec garbage fuel dr0 dr1 st hst).1]
    exact ⟨List.nodup_nil, fun k hk => absurd hk (List.not_mem_nil k)⟩
  | iterate fuel st st2 _ hit ih =>
    obtain ⟨m, _, _, _, hq⟩ := iteration_spec fuel st st2 hit
    have hc := QLearn.WellKeyed_ChooseAction st.q (GetState st.b.player_ st.b.food_) st.draws ih
      (GetState_mem_labels _ _)
    rcases hq with hq | hq
    · rw [hq]
      exact QLearn.WellKeyed_Learn _ _ _ _ _ hc (GetState_mem_labels _ _)
        (QLearn.ChooseAction_mem_actions _ _ _) (GetState_mem_labels _ _)
    · rw [hq]
      exact hc

end Main

/-- C15: in every state reachable by the driver loop, every key of the
Q-table is a pair of one of the encoder's labels and one of the four actions,
the keys are pairwise different, and the table holds at most 36 entries (at
most 32, the encoder having eight labels); the same holds for the table that
`ChooseAction` leaves in the middle of the next iteration. -/
theorem C15_table_size (st : Main.State) (h : Main.Reachable st) :
    (∀ k ∈ QMap.keys st.q.q, k.1 ∈ GetState.labels ∧ k.2 ∈ Direction.actions) ∧
    (QMap.keys st.q.q).Nodup ∧
    st.q.q.length ≤ 36 ∧ st.q.q.length ≤ 32 ∧
    (∀ k ∈ QMap.keys
        (st.q.ChooseAction (GetState st.b.player_ st.b.food_) st.draws).2.1.q,
      k.1 ∈ GetState.labels ∧ k.2 ∈ Direction.actions) ∧
    (st.q.ChooseAction (GetState st.b.player_ st.b.food_) st.draws).2.1.q.length ≤ 36 := by
  have hw := Main.Reachable_WellKeyed st h
  have hc := QLearn.WellKeyed_ChooseAction st.q (GetState st.b.player_ st.b.food_) st.draws hw
    (GetState_mem_labels _ _)
  have h32 := QMap.WellKeyed_length _ hw
  have hc32 := QMap.WellKeyed_length _ hc
  exact ⟨hw.2, hw.1, by omega, h32, hc.2, by omega⟩

/-- C15 at the start state with food at (3, 4) and after one iteration on the
draws 500, 3 (greedy, action RIGHT): the table then holds the four keys of
the state "DOWNRIGHT". -/
theorem C15_table_size_witness :
    Main.sample.q.q.length ≤ 36 ∧
    (Main.iteration 1 Main.sample).map (fun st => QMap.keys st.q.q)
      = some [("DOWNRIGHT", .UP), ("DOWNRIGHT", .DOWN), ("DOWNRIGHT", .LEFT),
          ("DOWNRIGHT", .RIGHT)] ∧
    ∃ st2, Main.iteration 1 Main.sample = some st2 ∧ st2.q.q.length ≤ 36 := by
  have hs : Main.Reachable Main.sample :=
    Main.Reachable.start ⟨0, 5⟩ 1 (Draws.ofList [3, 4]) (Draws.ofList [500, 3]) _
      Main.start_sample
  refine ⟨(C15_table_size Main.sample hs).2.2.1, by decide!, ?_⟩
  cases hm : Main.iteration 1 Main.sample with
  | none =>
    have hsome : (Main.iteration 1 Main.sample).isSome = true := by decide!
    rw [hm] at hsome
    exact absurd hsome (by decide)
  | some st2 =>
    exact ⟨st2, rfl, (C15_table_size st2 (Main.Reachable.iterate 1 _ st2 hs hm)).2.2.1⟩

namespace QMap

theorem lookup_some_mem (q : QMap) (k : KeyType) (v : ℚ) (h : q.lookup k = some v) :
    ∃ e ∈ q, e.2 = v := by
  induction q with
  | nil => simp [List.lookup] at h
  | cons e q ih =>
    obtain ⟨k1, v1⟩ := e
    by_cases hk : k = k1
    · subst hk
      simp only [List.lookup, beq_self_eq_true, Option.some.injEq] at h
      exact ⟨(k, v1), List.mem_cons_self _ _, h⟩
    · have hb : (k == k1) = false := by simpa using hk
      simp only [List.lookup, hb] at h
      obtain ⟨e, he, hv⟩ := ih h
      exact ⟨e, List.mem_cons_of_mem _ he, hv⟩

/-- Every value read from a bounded table lies in [-100, 485]. -/
theorem Bounded_read (q : QMap) (k : KeyType) (h : QMap.Bounded q) :
    -100 ≤ QMap.read q k ∧ QMap.read q k ≤ 485 := by
  unfold QMap.read
  cases hl : q.lookup k with
  | none => simp only [Option.getD_none]; constructor <;> norm_num
  | some v =>
    obtain ⟨e, he, hv⟩ := QMap.lookup_some_mem q k v hl
    simp only [Option.getD_some]
    rw [← hv]
    exact h e he

theorem Bounded_append (q : QMap) (k : KeyType) (v : ℚ) (h : QMap.Bounded q)
    (hv : -100 ≤ v ∧ v ≤ 485) : QMap.Bounded (q ++ [(k, v)]) := by
  intro e he
  rw [List.mem_append, List.mem_singleton] at he
  rcases he with he | he
  · exact h e he
  · subst he; exact hv

theorem Bounded_index (q : QMap) (k : KeyType) (h : QMap.Bounded q) :
    QMap.Bounded (QMap.index q k).2 := by
  rcases QMap.index_snd_cases q k with he | ⟨he, _⟩
  · rw [he]; exact h
  · rw [he]; exact QMap.Bounded_append q k 0 h (by constructor <;> norm_num)

theorem Bounded_assign (q : QMap) (k : KeyType) (v : ℚ) (h : QMap.Bounded q)
    (hv : -100 ≤ v ∧ v ≤ 485) : QMap.Bounded (QMap.assign q k v) := by
  rcases QMap.assign_cases q k v with ⟨he, _⟩ | ⟨he, _⟩
  · rw [he]
    intro e hmem
    obtain ⟨e0, he0, hf⟩ := List.mem_map.1 hmem
    by_cases hk : e0.1 = k
    · rw [if_pos hk] at hf
      rw [← hf]
      exact hv
    · rw [if_neg hk] at hf
      rw [← hf]
      exact h e0 he0
  · rw [he]; exact QMap.Bounded_append q k v h hv

end QMap

namespace QLearn

/-- The arithmetic of the update: from q0 in [-100, 485], a reward in
[-100, 97] and a bootstrap value in [0, 485], the new value is in
[-100, 485]. -/
theorem update_bounds (q0 r m : ℚ) (hq : -100 ≤ q0 ∧ q0 ≤ 485) (hr : -100 ≤ r ∧ r ≤ 97)
    (hm : 0 ≤ m ∧ m ≤ 485) :
    -100 ≤ q0 + 0.3 * (r + 0.8 * m - q0) ∧ q0 + 0.3 * (r + 0.8 * m - q0) ≤ 485 := by
  have e : q0 + 0.3 * (r + 0.8 * m - q0) = 7 / 10 * q0 + 3 / 10 * r + 6 / 25 * m := by
    norm_num
    ring
  rw [e]
  obtain ⟨h1, h2⟩ := hq
  obtain ⟨h3, h4⟩ := hr
  obtain ⟨h5, h6⟩ := hm
  constructor <;> linarith

theorem Bounded_Fill (l : QLearn) (s : String) (h : QMap.Bounded l.q) :
    QMap.Bounded (l.Fill s).2.q := by
  rw [Fill_snd_q]
  exact QMap.Bounded_index _ _ (QMap.Bounded_index _ _ (QMap.Bounded_index _ _
    (QMap.Bounded_index _ _ h)))

theorem Bounded_ChooseAction (l : QLearn) (s : String) (dr : Draws) (h : QMap.Bounded l.q) :
    QMap.Bounded (l.ChooseAction s dr).2.1.q := by
  rcases ChooseAction_snd_q l s dr with he | he
  · rw [he]; exact h
  · rw [he]; exact Bounded_Fill l s h

/-- One call of `Learn` with a reward in [-100, 97] keeps every entry of the
table in [-100, 485]. -/
theorem Bounded_Learn (l : QLearn) (s : String) (a : Direction) (r : ℚ) (s2 : String)
    (h : QMap.Bounded l.q) (hr : -100 ≤ r ∧ r ≤ 97) :
    QMap.Bounded (l.Learn s a r s2).2.q := by
  rw [Learn_snd_q]
  apply QMap.Bounded_assign
  · exact QMap.Bounded_index _ _ (QMap.Bounded_index _ _ (QMap.Bounded_index _ _
      (QMap.Bounded_index _ _ (QMap.Bounded_index _ _ h))))
  · have hU := QMap.Bounded_read l.q (s2, .UP) h
    have hD := QMap.Bounded_read l.q (s2, .DOWN) h
    have hL := QMap.Bounded_read l.q (s2, .LEFT) h
    have hR := QMap.Bounded_read l.q (s2, .RIGHT) h
    apply update_bounds _ _ _ (QMap.Bounded_read l.q (s, a) h) hr
    constructor
    · simp only [le_max_iff, le_refl, or_true]
    · simp only [max_le_iff]
      exact ⟨hR.2, hL.2, hD.2, hU.2, by norm_num⟩

end QLearn

namespace Board

/-- The only changes of the score that `Move` can make are -100, -3 and 97. -/
theorem Move_score (fuel : Nat) (b : Board) (d : Direction) (dr : Draws)
    (m : Bool × Board × Draws) (h : Move fuel b d dr = some m) :
    m.2.1.score_ - b.score_ = -100 ∨ m.2.1.score_ - b.score_ = -3 ∨
      m.2.1.score_ - b.score_ = 97 := by
  by_cases hin : InBounds (b.Target d)
  · obtain ⟨_, _, h3, _⟩ := Move_in_spec fuel b d dr hin m h
    rw [h3]
    by_cases hc : (b.Target d).1 = b.food_.x ∧ (b.Target d).2 = b.food_.y
    · rw [if_pos hc]; right; right; ring
    · rw [if_neg hc]; right; left; ring
  · rw [Move_out fuel b d dr hin] at h
    have := (Option.some.inj h).symm
    subst this
    left
    show b.score_ - 100 - b.score_ = -100
    ring

end Board

namespace Main

/-- In every reachable state of the driver `previous_score` is the score of
the board and every entry of the table lies in [-100, 485]. -/
theorem Reachable_Bounded (st : Main.State) (h : Main.Reachable st) :
    st.previous_score = st.b.score_ ∧ QMap.Bounded st.q.q := by
  induction h with
  | start garbage fuel dr0 dr1 st hst =>
    obtain ⟨h1, h2, h3, _⟩ := start_spec garbage fuel dr0 dr1 st hst
    refine ⟨by rw [h2, h3], ?_⟩
    rw [h1]
    intro e he
    exact absurd he (List.not_mem_nil e)
  | iterate fuel st st2 _ hit ih =>
    obtain ⟨m, hm, hb, hp, hq⟩ := iteration_spec fuel st st2 hit
    refine ⟨by rw [hp, hb], ?_⟩
    have hc := QLearn.Bounded_ChooseAction st.q (GetState st.b.player_ st.b.food_) st.draws ih.2
    rcases hq with hq | hq
    · rw [hq]
      apply QLearn.Bounded_Learn _ _ _ _ _ hc
      rw [ih.1]
      rcases Board.Move_score fuel st.b _ _ m hm with hs | hs | hs <;> rw [hs] <;>
        constructor <;> norm_num
    · rw [hq]
      exact hc

end Main

/-- C20: if every entry of the Q-table lies in [-100, 485] and the reward
lies in [-100, 97], then after `Learn` every entry still lies in [-100, 485];
the only changes of the score that `Move` makes are -100, -3 and +97; the
empty table of the constructed learner is within the bounds, and so is the
table in every state reachable by the driver loop. -/
theorem C20_values_bounded (l : QLearn) (s : String) (a : Direction) (r : ℚ) (s2 : String)
    (hb : QMap.Bounded l.q) (hr : -100 ≤ r ∧ r ≤ 97) :
    QMap.Bounded (l.Learn s a r s2).2.q ∧
    (∀ (fuel : Nat) (b : Board) (d : Direction) (dr : Draws) (m : Bool × Board × Draws),
      Board.Move fuel b d dr = some m →
      m.2.1.score - b.score = -100 ∨ m.2.1.score - b.score = -3 ∨
        m.2.1.score - b.score = 97) ∧
    QMap.Bounded (QLearn.new 0.05 0.1 0.9).q ∧
    (∀ st : Main.State, Main.Reachable st → QMap.Bounded st.q.q) :=
  ⟨QLearn.Bounded_Learn l s a r s2 hb hr,
   fun fuel b d dr m hm => Board.Move_score fuel b d dr m hm,
   fun e he => absurd he (List.not_mem_nil e),
   fun st hst => (Main.Reachable_Bounded st hst).2⟩

/-- C20 at the learner after four updates (every entry -9/10 or 0) with the
reward 97 : the updated entry Q("UP", UP) = 2847/100 and all others stay in
[-100, 485]. -/
theorem C20_values_bounded_witness :
    QMap.Bounded QLearn.afterFourSteps.q ∧
    ((QLearn.afterFourSteps.Learn "UP" .UP 97 "UP").2.GetQ "UP" .UP).1 = 2847 / 100 ∧
    QMap.Bounded (QLearn.afterFourSteps.Learn "UP" .UP 97 "UP").2.q :=
  ⟨by unfold QMap.Bounded; decide!, by decide!,
   (C20_values_bounded QLearn.afterFourSteps "UP" .UP 97 "UP"
     (by unfold QMap.Bounded; decide!) (by constructor <;> norm_num)).1⟩
